import Mathlib

/-! ## Verification of the Dev Tasks / QR-code repository

Shallow embedding of the two client-side applications in this repository:

* `apps/app/src/main.js` — the "Dev Tasks" to-do application (task data
  model, persistence via `btoa`/`atob` + `JSON.stringify`/`JSON.parse`,
  `sortTasks`, `renderTasks`, `escapeHtml`, `confirmTask`, `saveEdit`,
  `toggleTaskComplete`).
* the QR-code generator (`updateShareURL` / `parseURLParameters`):
  share-link pipeline JSON → base64 → URL-safe substitution.

Browser built-ins used by the code (`btoa`, `atob`, `JSON.stringify`,
`JSON.parse`, `Date`, DOM-based HTML escaping) are not part of the
repository; they are embedded here executably, following their standard
(WHATWG / ECMA-262) semantics, restricted to the shapes this program
actually produces (e.g. JSON numbers are the nonnegative integers the
app stores).  JavaScript machine numbers never overflow in this program
(millisecond timestamps), so they are modelled as `Nat`/`Int`.
-/

set_option maxRecDepth 4096

namespace DevTasks

/-! ## Data model (spec §3, main.js lines 7-18, 378-386) -/
/-- A task object as created by `confirmTask` (main.js lines 378-386).
`id` is `Date.now()` (integer milliseconds), `createdAt` is
`new Date().toISOString()` kept as an opaque string. -/
structure Task where
  id : Nat
  task : String
  project : String
  organization : String
  dueDate : String
  completed : Bool
  createdAt : String
deriving DecidableEq, Repr

/-- The application state: the four persisted globals of main.js
(lines 7-10): `tasks`, `projects`, `organizations`, `currentSortMode`. -/
structure AppState where
  tasks : List Task
  projects : List String
  organizations : List String
  currentSortMode : String
deriving DecidableEq, Repr

/-- The draft being filled in the add flow (main.js lines 12-17). -/
structure TaskDraft where
  task : String
  project : String
  organization : String
  dueDate : String
deriving DecidableEq, Repr

/-! ## Sorting (main.js lines 473-496)

`String.prototype.localeCompare` on the ISO date / timestamp strings the
app stores is modelled as the lexicographic comparison of the strings
(Mathlib's linear order on `String`), returning an `Ordering` in place
of the JavaScript negative/zero/positive integer. -/
/-- Model of `a.localeCompare(b)`: `.lt`/`.eq`/`.gt` for
negative/zero/positive.  The comparison is on the character lists (the
same order as `String`'s lexicographic order, in a kernel-reducible
form). -/
def localeCompare (a b : String) : Ordering :=
  if a.data < b.data then .lt else if a = b then .eq else .gt

/-- The comparator of `sortTasks` in mode `'date'` (main.js lines 475-481),
as an `Ordering` (`.lt` = `a` sorts before `b`). -/
def cmpDate (a b : Task) : Ordering :=
  if a.dueDate = "" ∧ b.dueDate = "" then localeCompare b.createdAt a.createdAt
  else if a.dueDate = "" then .gt
  else if b.dueDate = "" then .lt
  else localeCompare a.dueDate b.dueDate

/-- The comparator of `sortTasks` in mode `'project'` (main.js
lines 483-494). -/
def cmpProject (a b : Task) : Ordering :=
  if a.project ≠ b.project then
    if a.project = "" then .gt
    else if b.project = "" then .lt
    else localeCompare a.project b.project
  else cmpDate a b

/-- The comparator actually passed to `Array.prototype.sort` for the
given mode string (`'date'` or anything else = `'project'` branch). -/
def taskCmp (mode : String) (a b : Task) : Ordering :=
  if mode = "date" then cmpDate a b else cmpProject a b

/-- `sortTasks` (main.js lines 473-496): sorts a copy of the task list
with the mode's comparator.  `Array.prototype.sort` is stable
(ECMAScript 2019), modelled by the stable `List.mergeSort` keeping `a`
before `b` whenever the comparator does not return a positive value. -/
def sortTasks (mode : String) (tasks : List Task) : List Task :=
  tasks.mergeSort (fun a b => taskCmp mode a b ≠ Ordering.gt)

/-- `cmpDate` as a boolean "may precede" relation. -/
def leDate (a b : Task) : Bool := cmpDate a b ≠ Ordering.gt

/-- `cmpProject` as a boolean "may precede" relation. -/
def leProject (a b : Task) : Bool := cmpProject a b ≠ Ordering.gt

/-! ### The ordering described by the spec (§4.3), stated in its own words -/
/-- Spec §4.3, mode `byDueDate`: "tasks with a due date sort ascending by
date string; tasks without a due date sort after all dated tasks, and
among themselves sort by descending creation time (most recent first)".
`specLeDate a b` means `a` may be placed (weakly) before `b`. -/
def specLeDate (a b : Task) : Prop :=
  if a.dueDate ≠ "" ∧ b.dueDate ≠ "" then a.dueDate ≤ b.dueDate
  else if a.dueDate ≠ "" then True
  else if b.dueDate ≠ "" then False
  else b.createdAt ≤ a.createdAt

/-- Spec §4.3, mode `byProject`: "primary key is project name ascending
(lexicographic); tasks with empty project sort after all named projects.
Secondary key (tie-break within same project, including the no-project
group) is the due-date rule above". -/
def specLeProject (a b : Task) : Prop :=
  if a.project = b.project then specLeDate a b
  else if a.project = "" then False
  else if b.project = "" then True
  else a.project ≤ b.project

/-! ### Claim C3: the comparators are not decisive on all distinct tasks -/
/-- `cmpDate` returns `.eq` exactly when the due-date keys tie: both
tasks undated with equal `createdAt`, or both dated with equal due
dates. -/
def dateKeysEq (a b : Task) : Prop :=
  (a.dueDate = "" ∧ b.dueDate = "" ∧ a.createdAt = b.createdAt) ∨
  (a.dueDate ≠ "" ∧ b.dueDate ≠ "" ∧ a.dueDate = b.dueDate)

/-- The `byProject` keys tie: same project and tying due-date keys. -/
def projectKeysEq (a b : Task) : Prop :=
  a.project = b.project ∧ dateKeysEq a b

instance (a b : Task) : Decidable (dateKeysEq a b) := by
  unfold dateKeysEq
  infer_instance

instance (a b : Task) : Decidable (projectKeysEq a b) := by
  unfold projectKeysEq
  infer_instance

/-- Two distinct tasks sharing the same (nonempty) due date: the
comparator of `sortTasks` returns `0` on them in both orders and in
both modes, so neither sorts decisively before the other. -/
def cexTaskA : Task :=
  ⟨1, "write tests", "", "", "2026-01-01", false, "2025-12-30T10:00:00.000Z"⟩

/-- Companion to `cexTaskA`: same due date, different creation time. -/
def cexTaskB : Task :=
  ⟨2, "fix login bug", "", "", "2026-01-01", false, "2025-12-31T09:00:00.000Z"⟩

/-- A task with a different due date from `cexTaskA`. -/
def cexTaskC : Task :=
  ⟨3, "deploy release", "web", "", "2026-02-02", false, "2025-12-31T11:00:00.000Z"⟩

/-! ## Task repository operations (main.js lines 365-457)

`Date.now()` and `new Date().toISOString()` are two reads of the wall
clock; they are passed in as the parameters `now` (milliseconds) and
`nowIso` (the ISO timestamp string).  `prompt` results are passed as
`Option String` (`none` = cancelled). -/
/-- `confirmTask` (main.js lines 365-394): rejects an empty draft text,
registers new project/organization names, appends the new task.  The
subsequent `saveData()` call is modelled separately
(`confirmTaskFull`). -/
def confirmTask (draft : TaskDraft) (now : Nat) (nowIso : String)
    (s : AppState) : AppState :=
  if draft.task = "" then s
  else
    let projects :=
      if draft.project ≠ "" ∧ draft.project ∉ s.projects
      then s.projects ++ [draft.project] else s.projects
    let organizations :=
      if draft.organization ≠ "" ∧ draft.organization ∉ s.organizations
      then s.organizations ++ [draft.organization] else s.organizations
    let newTask : Task :=
      ⟨now, draft.task, draft.project, draft.organization, draft.dueDate,
        false, nowIso⟩
    { s with tasks := s.tasks ++ [newTask], projects := projects,
             organizations := organizations }

/-- `tasks.find(t => t.id === id)` followed by in-place mutation of the
found object: rewrite the first task with the given id. -/
def updateFirst (ts : List Task) (id : Nat) (f : Task → Task) : List Task :=
  match ts with
  | [] => []
  | t :: rest =>
    if t.id = id then f t :: rest else t :: updateFirst rest id f

/-- Whitespace as recognised by `String.prototype.trim` (the common
code points: space, tab, line feed, carriage return, vertical tab, form
feed, no-break space, BOM). -/
def jsWhitespace (c : Char) : Bool :=
  c = ' ' || c = '\t' || c = '\n' || c = '\r' || c = '\x0b' ||
    c = '\x0c' || c = '\u00A0' || c = '\uFEFF'

/-- Model of `String.prototype.trim`: strip leading and trailing
whitespace. -/
def jsTrim (s : String) : String :=
  ⟨(((s.data.dropWhile jsWhitespace).reverse.dropWhile jsWhitespace).reverse)⟩

/-- `saveEdit` (main.js lines 396-437).  `editingTaskId` is the module
global; the four `input*` arguments are the edit-form field values; the
`prompt*` arguments are the results of the `prompt()` calls for the
`__new__` selections (`none` = cancelled, yielding `''` via
`newProject || ''`). -/
def saveEdit (editingTaskId : Option Nat)
    (inputTask inputProject inputOrg inputDue : String)
    (promptProject promptOrg : Option String) (s : AppState) : AppState :=
  match editingTaskId with
  | none => s
  | some id =>
    if (s.tasks.find? (fun t => t.id = id)).isNone then s
    else
      let newTask := jsTrim inputTask
      if newTask = "" then s
      else
        let projAfter :=
          if inputProject = "__new__" then
            match promptProject with
            | some p =>
              (p, if p ≠ "" ∧ p ∉ s.projects then s.projects ++ [p]
                  else s.projects)
            | none => ("", s.projects)
          else (inputProject, s.projects)
        let orgAfter :=
          if inputOrg = "__new__" then
            match promptOrg with
            | some o =>
              (o, if o ≠ "" ∧ o ∉ s.organizations then s.organizations ++ [o]
                  else s.organizations)
            | none => ("", s.organizations)
          else (inputOrg, s.organizations)
        let tasks := updateFirst s.tasks id (fun t =>
          { t with task := newTask, project := projAfter.1,
                   organization := orgAfter.1, dueDate := inputDue })
        { s with tasks := tasks, projects := projAfter.2,
                 organizations := orgAfter.2 }

/-- `deleteTask` (main.js lines 439-448): removes every task with the
editing id once the user confirms. -/
def deleteTask (editingTaskId : Option Nat) (confirmed : Bool)
    (s : AppState) : AppState :=
  match editingTaskId with
  | none => s
  | some id =>
    if confirmed then
      { s with tasks := s.tasks.filter (fun t => ¬ t.id = id) }
    else s

/-- `toggleTaskComplete` (main.js lines 450-457): flips `completed` on
the first task with the given id. -/
def toggleTaskComplete (id : Nat) (ts : List Task) : List Task :=
  updateFirst ts id (fun t => { t with completed := !t.completed })

/-! ### Claim C8: task-id uniqueness -/
/-- An add-flow draft used to refute id freshness. -/
def cexDraft1 : TaskDraft := ⟨"refactor parser", "", "", ""⟩

/-- A second add-flow draft confirmed in the same millisecond. -/
def cexDraft2 : TaskDraft := ⟨"update docs", "", "", ""⟩

/-- The empty initial state (first run: no saved data). -/
def emptyState : AppState := ⟨[], [], [], "date"⟩

/-! ## Dates (browser `Date` built-in, modelled per ECMA-262)

`new Date("YYYY-MM-DD")` parses a date-only ISO string as midnight UTC;
`new Date()` is the current instant.  Instants are integer milliseconds
since the Unix epoch (`Int`).  The civil-calendar conversion uses the
standard era/day-of-era computation.  Times are interpreted in UTC (the
host timezone is not modelled; the spec notes behaviour near timezone
boundaries is an implementation choice). -/
/-- The decimal digit character for `n < 10`. -/
def digitChar (n : Nat) : Char := Char.ofNat (48 + n)

/-- Fuel-driven decimal rendering (fuel ≥ n suffices), kept structurally
recursive so that the kernel can evaluate it. -/
def natToDigitsAux : Nat → Nat → List Char → List Char
  | 0, n, acc => digitChar n :: acc
  | fuel + 1, n, acc =>
    if n < 10 then digitChar n :: acc
    else natToDigitsAux fuel (n / 10) (digitChar (n % 10) :: acc)

/-- Decimal representation of a natural number (the string interpolation
`${task.id}` / `JSON.stringify` of an integer). -/
def natRepr (n : Nat) : String := ⟨natToDigitsAux n n []⟩

/-- Is `c` one of `'0'`-`'9'`? -/
def isDigitChar (c : Char) : Bool := '0' ≤ c && c ≤ '9'

/-- Numeric value of a digit character. -/
def digitVal (c : Char) : Nat := c.toNat - 48

/-- Parse exactly `YYYY-MM-DD` into year/month/day numbers. -/
def parseYmd (s : String) : Option (Nat × Nat × Nat) :=
  match s.data with
  | [y1, y2, y3, y4, '-', m1, m2, '-', d1, d2] =>
    if isDigitChar y1 && isDigitChar y2 && isDigitChar y3 && isDigitChar y4 &&
        isDigitChar m1 && isDigitChar m2 && isDigitChar d1 && isDigitChar d2 then
      some (1000 * digitVal y1 + 100 * digitVal y2 + 10 * digitVal y3 + digitVal y4,
        10 * digitVal m1 + digitVal m2,
        10 * digitVal d1 + digitVal d2)
    else none
  | _ => none

/-- Gregorian leap year. -/
def isLeapYear (y : Nat) : Bool := (y % 4 = 0 && y % 100 ≠ 0) || y % 400 = 0

/-- Days in a month of a given year. -/
def daysInMonth (y m : Nat) : Nat :=
  if m = 2 then (if isLeapYear y then 29 else 28)
  else if m = 4 ∨ m = 6 ∨ m = 9 ∨ m = 11 then 30
  else 31

/-- Days since 1970-01-01 of the civil date `y-m-d` (era/day-of-era
computation; all intermediate divisions have nonnegative operands for
four-digit years). -/
def daysFromCivil (y m d : Nat) : Int :=
  let yi : Int := if m ≤ 2 then (y : Int) - 1 else (y : Int)
  let era : Int := (if 0 ≤ yi then yi else yi - 399) / 400
  let yoe : Int := yi - era * 400
  let mp : Int := ((m : Int) + 9) % 12
  let doy : Int := (153 * mp + 2) / 5 + (d : Int) - 1
  let doe : Int := yoe * 365 + yoe / 4 - yoe / 100 + doy
  era * 146097 + doe - 719468

/-- Civil date (year, month, day) of a day number. -/
def civilFromDays (z0 : Int) : Int × Nat × Nat :=
  let z : Int := z0 + 719468
  let era : Int := (if 0 ≤ z then z else z - 146096) / 146097
  let doe : Int := z - era * 146097
  let yoe : Int := (doe - doe / 1460 + doe / 36524 - doe / 146096) / 365
  let y : Int := yoe + era * 400
  let doy : Int := doe - (365 * yoe + yoe / 4 - yoe / 100)
  let mp : Int := (5 * doy + 2) / 153
  let d : Nat := (doy - (153 * mp + 2) / 5 + 1).toNat
  let m : Nat := (if mp < 10 then mp + 3 else mp - 9).toNat
  (if m ≤ 2 then y + 1 else y, m, d)

/-- Milliseconds per day. -/
def msPerDay : Int := 86400000

/-- Model of `new Date(dateString).getTime()` for the date-only ISO
strings this app stores: `YYYY-MM-DD` with an in-range month and day
parses to midnight UTC of that date; anything else is an invalid date
(`NaN`, modelled as `none`). -/
def parseDateMs (s : String) : Option Int :=
  match parseYmd s with
  | some (y, m, d) =>
    if 1 ≤ m ∧ m ≤ 12 ∧ 1 ≤ d ∧ d ≤ daysInMonth y m then
      some (msPerDay * daysFromCivil y m d)
    else none
  | none => none

/-- The overdue test of `renderTasks` (main.js line 517):
`task.dueDate && new Date(task.dueDate) < new Date() && !task.completed`.
A comparison with an invalid date (`NaN`) is false. -/
def isOverdue (now : Int) (t : Task) : Bool :=
  (t.dueDate ≠ "" : Bool) &&
    (match parseDateMs t.dueDate with
     | some ms => decide (ms < now)
     | none => false) &&
    !t.completed

/-- `toLocaleDateString('en-US', {month:'short', ...})` month names. -/
def monthAbbrev : Nat → String
  | 1 => "Jan" | 2 => "Feb" | 3 => "Mar" | 4 => "Apr"
  | 5 => "May" | 6 => "Jun" | 7 => "Jul" | 8 => "Aug"
  | 9 => "Sep" | 10 => "Oct" | 11 => "Nov" | 12 => "Dec"
  | _ => ""

/-- Decimal rendering of an `Int` (negative years cannot arise from
`parseYmd`, but keep totality). -/
def intRepr (i : Int) : String :=
  if i < 0 then "-" ++ natRepr (-i).toNat else natRepr i.toNat

/-- `formatDate` (main.js lines 538-560): `''` for the empty string;
"Today"/"Tomorrow" when the date (time zeroed) equals the current or
next day; otherwise `en-US` short-month formatting, with the year only
when it differs from the current year. -/
def formatDate (now : Int) (dateString : String) : String :=
  if dateString = "" then ""
  else
    match parseDateMs dateString with
    | none => "Invalid Date"
    | some ms =>
      let dateDay := ms / msPerDay
      let todayDay := now / msPerDay
      if dateDay = todayDay then "Today"
      else if dateDay = todayDay + 1 then "Tomorrow"
      else
        let ymd := civilFromDays dateDay
        let tymd := civilFromDays todayDay
        monthAbbrev ymd.2.1 ++ " " ++ natRepr ymd.2.2 ++
          (if ymd.1 ≠ tymd.1 then ", " ++ intRepr ymd.1 else "")

/-! ## Rendering (main.js lines 502-532, 562-566) -/
/-- `escapeHtml` (main.js lines 562-566) works by writing the text into
a DOM node and reading back `innerHTML`; serialization escapes the
characters `&`, `<`, `>` as entities and leaves other characters
unchanged (U+00A0 is also escaped by browsers, irrelevant to the claimed
characters and omitted). -/
def escChars (c : Char) : List Char :=
  if c = '&' then "&amp;".data
  else if c = '<' then "&lt;".data
  else if c = '>' then "&gt;".data
  else [c]

/-- Escape every character of a list. -/
def escListChars : List Char → List Char
  | [] => []
  | c :: cs => escChars c ++ escListChars cs

/-- `escapeHtml` as a string transformer. -/
def escapeHtml (s : String) : String := ⟨escListChars s.data⟩

/-- One task row of `renderTasks` (main.js lines 519-530), with the
escaping function abstracted so that the factorization through escaping
can be stated (`renderTaskItem` below instantiates it with `escapeHtml`,
exactly as the source does). -/
def renderTaskItemWith (esc : String → String) (now : Int) (t : Task) :
    String :=
  "\n            <div class=\"task-item " ++
    (if t.completed then "completed" else "") ++
    "\" \n                 onclick=\"showEditView(" ++ natRepr t.id ++
    ")\"\n                 data-task-id=\"" ++ natRepr t.id ++
    "\">\n                <div class=\"task-title\">" ++ esc t.task ++
    "</div>\n                <div class=\"task-meta\">\n                    " ++
    (if t.project = "" then ""
     else "<span class=\"task-tag project\">📁 " ++ esc t.project ++ "</span>") ++
    "\n                    " ++
    (if t.organization = "" then ""
     else "<span class=\"task-tag org\">🏢 " ++ esc t.organization ++ "</span>") ++
    "\n                    " ++
    (if t.dueDate = "" then ""
     else "<span class=\"task-tag due " ++
       (if isOverdue now t then "overdue" else "") ++
       "\">📅 " ++ formatDate now t.dueDate ++ "</span>") ++
    "\n                </div>\n            </div>\n        "

/-- One task row as the source renders it (user text escaped with
`escapeHtml`). -/
def renderTaskItem (now : Int) (t : Task) : String :=
  renderTaskItemWith escapeHtml now t

/-- `renderTasks` (main.js lines 502-532): the empty list renders the
empty-state indicator (no markup); otherwise the joined rows of the
sorted tasks. -/
def renderTasks (mode : String) (now : Int) (tasks : List Task) : String :=
  if tasks = [] then ""
  else String.join ((sortTasks mode tasks).map (renderTaskItem now))

/-- The task with its user-text fields already escaped. -/
def escapeFields (t : Task) : Task :=
  { t with task := escapeHtml t.task, project := escapeHtml t.project,
           organization := escapeHtml t.organization }

/-- Every `'&'` in the list starts one of the inserted entities
`&amp;`, `&lt;`, `&gt;`. -/
def ampEscaped : List Char → Bool
  | [] => true
  | c :: rest =>
    if c = '&' then
      if rest.take 4 = ['a', 'm', 'p', ';'] then ampEscaped (rest.drop 4)
      else if rest.take 3 = ['l', 't', ';'] then ampEscaped (rest.drop 3)
      else if rest.take 3 = ['g', 't', ';'] then ampEscaped (rest.drop 3)
      else false
    else ampEscaped rest
termination_by l => l.length
decreasing_by
  · simp only [List.length_cons, List.length_drop]
    omega
  · simp only [List.length_cons, List.length_drop]
    omega
  · simp only [List.length_cons, List.length_drop]
    omega
  · simp only [List.length_cons]
    omega

/-! ### Claim C5: the overdue marker -/
/-- A task due on 2026-10-11, not completed. -/
def cexTodayTask : Task :=
  ⟨42, "ship the feature", "", "", "2026-10-11", false,
    "2026-10-01T00:00:00.000Z"⟩

/-! ## JSON (`JSON.stringify` / `JSON.parse`, modelled per ECMA-262)

JSON values, restricted to the shapes this program stores: numbers are
the nonnegative integers (`Date.now()` ids), strings, booleans, null,
arrays and objects (insertion-ordered fields).  The arrays/objects are
mutually inductive lists so that every function below is structurally
recursive and kernel-reducible. -/
mutual
inductive Json where
  | null : Json
  | bool (b : Bool) : Json
  | num (n : Nat) : Json
  | str (s : String) : Json
  | arr (xs : JsonArr) : Json
  | obj (fs : JsonObj) : Json
deriving Repr

inductive JsonArr where
  | nil : JsonArr
  | cons (hd : Json) (tl : JsonArr) : JsonArr
deriving Repr

inductive JsonObj where
  | nil : JsonObj
  | cons (k : String) (v : Json) (tl : JsonObj) : JsonObj
deriving Repr
end

/-- Lowercase hexadecimal digit (as `JSON.stringify` emits in `\u00xx`
escapes). -/
def hexDigit (n : Nat) : Char :=
  if n < 10 then Char.ofNat (48 + n) else Char.ofNat (87 + n)

/-- `QuoteJSONString` escaping of one character: `\"`, `\\`, the named
control escapes, `\u00xx` for other control characters, all else
verbatim. -/
def escJsonChar (c : Char) : List Char :=
  if c = '"' then ['\\', '"']
  else if c = '\\' then ['\\', '\\']
  else if c = '\x08' then ['\\', 'b']
  else if c = '\t' then ['\\', 't']
  else if c = '\n' then ['\\', 'n']
  else if c = '\x0c' then ['\\', 'f']
  else if c = '\r' then ['\\', 'r']
  else if c.toNat < 32 then
    ['\\', 'u', '0', '0', hexDigit (c.toNat / 16), hexDigit (c.toNat % 16)]
  else [c]

/-- Escape a character list. -/
def escJsonList : List Char → List Char
  | [] => []
  | c :: cs => escJsonChar c ++ escJsonList cs

/-- A JSON string literal: quote, escaped body, quote. -/
def quoteJson (s : String) : List Char :=
  '"' :: (escJsonList s.data ++ ['"'])

mutual
/-- `JSON.stringify` (no spacing), producing the character list. -/
def stringifyVal : Json → List Char
  | .null => ['n', 'u', 'l', 'l']
  | .num n => (natRepr n).data
  | .bool b => if b then ['t', 'r', 'u', 'e'] else ['f', 'a', 'l', 's', 'e']
  | .str s => quoteJson s
  | .arr xs => '[' :: (stringifyArr xs ++ [']'])
  | .obj fs => '{' :: (stringifyObj fs ++ ['}'])

/-- Comma-separated array items. -/
def stringifyArr : JsonArr → List Char
  | .nil => []
  | .cons h .nil => stringifyVal h
  | .cons h (.cons h2 t) => stringifyVal h ++ ',' :: stringifyArr (.cons h2 t)

/-- Comma-separated `"key":value` fields. -/
def stringifyObj : JsonObj → List Char
  | .nil => []
  | .cons k v .nil => quoteJson k ++ ':' :: stringifyVal v
  | .cons k v (.cons k2 v2 t) =>
    quoteJson k ++ ':' :: stringifyVal v ++ ',' :: stringifyObj (.cons k2 v2 t)
end

/-- Hexadecimal digit value (both cases, as `JSON.parse` accepts). -/
def hexVal (c : Char) : Option Nat :=
  if '0' ≤ c ∧ c ≤ '9' then some (c.toNat - 48)
  else if 'a' ≤ c ∧ c ≤ 'f' then some (c.toNat - 87)
  else if 'A' ≤ c ∧ c ≤ 'F' then some (c.toNat - 55)
  else none

/-- Parse a JSON string body (after the opening quote) up to the closing
quote, handling the standard escapes, with explicit fuel (one unit per
decoded character; the input length suffices).  Surrogate-pair
recombination is not modelled; the writer never emits lone
surrogates. -/
def parseStr : Nat → List Char → Option (List Char × List Char)
  | 0, _ => none
  | fuel + 1, cs =>
    match cs with
    | [] => none
    | c :: r =>
      if c = '"' then some ([], r)
      else if c = '\\' then
        if r.take 1 = ['"'] then
          (parseStr fuel (r.drop 1)).map (fun p => ('"' :: p.1, p.2))
        else if r.take 1 = ['\\'] then
          (parseStr fuel (r.drop 1)).map (fun p => ('\\' :: p.1, p.2))
        else if r.take 1 = ['/'] then
          (parseStr fuel (r.drop 1)).map (fun p => ('/' :: p.1, p.2))
        else if r.take 1 = ['b'] then
          (parseStr fuel (r.drop 1)).map (fun p => ('\x08' :: p.1, p.2))
        else if r.take 1 = ['f'] then
          (parseStr fuel (r.drop 1)).map (fun p => ('\x0c' :: p.1, p.2))
        else if r.take 1 = ['n'] then
          (parseStr fuel (r.drop 1)).map (fun p => ('\n' :: p.1, p.2))
        else if r.take 1 = ['r'] then
          (parseStr fuel (r.drop 1)).map (fun p => ('\r' :: p.1, p.2))
        else if r.take 1 = ['t'] then
          (parseStr fuel (r.drop 1)).map (fun p => ('\t' :: p.1, p.2))
        else if r.take 1 = ['u'] then
          (hexVal (r.getD 1 '!')).bind (fun v1 =>
            (hexVal (r.getD 2 '!')).bind (fun v2 =>
              (hexVal (r.getD 3 '!')).bind (fun v3 =>
                (hexVal (r.getD 4 '!')).bind (fun v4 =>
                  if 5 ≤ r.length then
                    (parseStr fuel (r.drop 5)).map (fun p =>
                      (Char.ofNat (((v1 * 16 + v2) * 16 + v3) * 16 + v4) :: p.1,
                        p.2))
                  else none))))
        else none
      else (parseStr fuel r).map (fun p => (c :: p.1, p.2))

/-- Parse a run of decimal digits (the only number shape this program
writes: nonnegative integers). -/
def parseNat (cs : List Char) : Option (Nat × List Char) :=
  let ds := cs.takeWhile isDigitChar
  if ds.isEmpty then none
  else some (ds.foldl (fun acc c => 10 * acc + digitVal c) 0,
    cs.dropWhile isDigitChar)

mutual
/-- Recursive-descent `JSON.parse` with explicit fuel (structural, so
the kernel can evaluate it; fuel one more than the input length always
suffices).  Whitespace skipping is not modelled: the writer in this
program emits none. -/
def parseVal : Nat → List Char → Option (Json × List Char)
  | 0, _ => none
  | fuel + 1, cs =>
    if cs.take 4 = ['n', 'u', 'l', 'l'] then some (.null, cs.drop 4)
    else if cs.take 4 = ['t', 'r', 'u', 'e'] then some (.bool true, cs.drop 4)
    else if cs.take 5 = ['f', 'a', 'l', 's', 'e'] then some (.bool false, cs.drop 5)
    else if cs.take 1 = ['"'] then
      (parseStr cs.length (cs.drop 1)).map (fun p => (.str ⟨p.1⟩, p.2))
    else if cs.take 1 = ['['] then
      (if (cs.drop 1).take 1 = [']'] then some (.arr .nil, cs.drop 2)
       else (parseArrTail fuel (cs.drop 1)).map (fun p => (.arr p.1, p.2)))
    else if cs.take 1 = ['{'] then
      (if (cs.drop 1).take 1 = ['}'] then some (.obj .nil, cs.drop 2)
       else (parseObjTail fuel (cs.drop 1)).map (fun p => (.obj p.1, p.2)))
    else if (cs.take 1).any isDigitChar then
      (parseNat cs).map (fun p => (.num p.1, p.2))
    else none

/-- One or more comma-separated values followed by `]`. -/
def parseArrTail : Nat → List Char → Option (JsonArr × List Char)
  | 0, _ => none
  | fuel + 1, cs =>
    (parseVal fuel cs).bind (fun vr =>
      if vr.2.take 1 = [','] then
        (parseArrTail fuel (vr.2.drop 1)).map (fun p => (.cons vr.1 p.1, p.2))
      else if vr.2.take 1 = [']'] then some (.cons vr.1 .nil, vr.2.drop 1)
      else none)

/-- One or more comma-separated `"key":value` fields followed by `}`. -/
def parseObjTail : Nat → List Char → Option (JsonObj × List Char)
  | 0, _ => none
  | fuel + 1, cs =>
    if cs.take 1 = ['"'] then
      (parseStr cs.length (cs.drop 1)).bind (fun kr =>
        if kr.2.take 1 = [':'] then
          (parseVal fuel (kr.2.drop 1)).bind (fun vr =>
            if vr.2.take 1 = [','] then
              (parseObjTail fuel (vr.2.drop 1)).map
                (fun p => (.cons ⟨kr.1⟩ vr.1 p.1, p.2))
            else if vr.2.take 1 = ['}'] then
              some (.cons ⟨kr.1⟩ vr.1 .nil, vr.2.drop 1)
            else none)
        else none)
    else none
end

/-- Top-level `JSON.parse`: the whole input must be one value. -/
def parseJson (s : String) : Option Json :=
  match parseVal (s.data.length + 1) s.data with
  | some (j, []) => some j
  | _ => none

/-! ## Base64 (`btoa` / `atob`, modelled per WHATWG) -/
/-- The base64 alphabet. -/
def b64Alphabet : List Char :=
  "ABCDEFGHIJKLMNOPQRSTUVWXYZabcdefghijklmnopqrstuvwxyz0123456789+/".data

/-- The alphabet character of a sextet. -/
def b64Char (n : Nat) : Char := b64Alphabet.getD n '?'

/-- The sextet of an alphabet character (`none` outside the alphabet,
including `'='`). -/
def b64Val (c : Char) : Option Nat := b64Alphabet.findIdx? (fun x => x = c)

/-- Unpadded base64 of a byte list (three bytes → four sextets). -/
def b64EncodeU : List Nat → List Char
  | [] => []
  | [b1] => [b64Char (b1 / 4), b64Char (b1 % 4 * 16)]
  | [b1, b2] =>
    [b64Char (b1 / 4), b64Char (b1 % 4 * 16 + b2 / 16), b64Char (b2 % 16 * 4)]
  | b1 :: b2 :: b3 :: rest =>
    b64Char (b1 / 4) :: b64Char (b1 % 4 * 16 + b2 / 16) ::
      b64Char (b2 % 16 * 4 + b3 / 64) :: b64Char (b3 % 64) :: b64EncodeU rest

/-- The `'='` padding for a byte count. -/
def b64PadFor (len : Nat) : List Char :=
  if len % 3 = 1 then ['=', '=']
  else if len % 3 = 2 then ['=']
  else []

/-- `btoa`: fails (`InvalidCharacterError`) on any code point above
U+00FF; otherwise standard padded base64 of the Latin-1 bytes. -/
def btoa (s : String) : Option String :=
  if s.data.all (fun c => c.toNat < 256) then
    let bytes := s.data.map Char.toNat
    some ⟨b64EncodeU bytes ++ b64PadFor bytes.length⟩
  else none

/-- Decode an (unpadded, alphabet-only) base64 character list; fails on
a character outside the alphabet or a remainder of one character
(forgiving-base64 leftover bits are discarded). -/
def b64DecodeU : List Char → Option (List Nat)
  | [] => some []
  | [_] => none
  | [c1, c2] =>
    (b64Val c1).bind (fun v1 =>
      (b64Val c2).map (fun v2 => [v1 * 4 + v2 / 16]))
  | [c1, c2, c3] =>
    (b64Val c1).bind (fun v1 =>
      (b64Val c2).bind (fun v2 =>
        (b64Val c3).map (fun v3 =>
          [v1 * 4 + v2 / 16, v2 % 16 * 16 + v3 / 4])))
  | c1 :: c2 :: c3 :: c4 :: rest =>
    (b64Val c1).bind (fun v1 =>
      (b64Val c2).bind (fun v2 =>
        (b64Val c3).bind (fun v3 =>
          (b64Val c4).bind (fun v4 =>
            (b64DecodeU rest).map (fun bs =>
              (v1 * 4 + v2 / 16) :: (v2 % 16 * 16 + v3 / 4) ::
                (v3 % 4 * 64 + v4) :: bs)))))

/-- Forgiving-base64 padding removal: when the length is a multiple of
four, up to two trailing `'='` are removed. -/
def stripPad (cs : List Char) : List Char :=
  if cs.length % 4 = 0 then
    if cs.reverse.take 2 = ['=', '='] then (cs.reverse.drop 2).reverse
    else if cs.reverse.take 1 = ['='] then (cs.reverse.drop 1).reverse
    else cs
  else cs

/-- `atob` (forgiving base64; whitespace stripping not modelled — no
caller here feeds it whitespace). -/
def atob (s : String) : Option String :=
  match b64DecodeU (stripPad s.data) with
  | some bs => some ⟨bs.map Char.ofNat⟩
  | none => none

/-! ## Persistence (main.js lines 51-97)

Storage is a pair of optional stored strings (the `creationStorage`
item and the `localStorage` item) plus failure switches for the storage
operations; `window.creationStorage` presence selects the branch.
JavaScript exceptions escaping a function are modelled as
`Except.error`; exceptions swallowed by `try`/`catch` leave the result
`ok`. -/
structure StorageEnv where
  useCreation : Bool
  getFails : Bool
  setFails : Bool
  creationStore : Option String
  localStore : Option String
deriving DecidableEq, Repr

/-- The `data` object of `saveData` (lines 52-57), as JSON. -/
def taskToJson (t : Task) : Json :=
  .obj (.cons "id" (.num t.id)
    (.cons "task" (.str t.task)
      (.cons "project" (.str t.project)
        (.cons "organization" (.str t.organization)
          (.cons "dueDate" (.str t.dueDate)
            (.cons "completed" (.bool t.completed)
              (.cons "createdAt" (.str t.createdAt) .nil)))))))

/-- JSON array of a task list. -/
def tasksToJsonArr : List Task → JsonArr
  | [] => .nil
  | t :: rest => .cons (taskToJson t) (tasksToJsonArr rest)

/-- JSON array of a string list. -/
def stringsToJsonArr : List String → JsonArr
  | [] => .nil
  | s :: rest => .cons (.str s) (stringsToJsonArr rest)

/-- The full state snapshot `{tasks, projects, organizations,
currentSortMode}` (insertion order of main.js lines 52-57). -/
def stateToJson (s : AppState) : Json :=
  .obj (.cons "tasks" (.arr (tasksToJsonArr s.tasks))
    (.cons "projects" (.arr (stringsToJsonArr s.projects))
      (.cons "organizations" (.arr (stringsToJsonArr s.organizations))
        (.cons "currentSortMode" (.str s.currentSortMode) .nil))))

/-- JavaScript property access `obj.key` (first binding wins; the
writer never emits duplicate keys). -/
def getField : JsonObj → String → Option Json
  | .nil, _ => none
  | .cons k v rest, key => if k = key then some v else getField rest key

/-- JavaScript truthiness of a JSON value (`NaN` cannot arise here). -/
def truthy : Json → Bool
  | .null => false
  | .bool b => b
  | .num n => !(n == 0)
  | .str s => !(s == "")
  | .arr _ => true
  | .obj _ => true

/-- `x || d` on JSON values (lines 92-95). -/
def jsOrElse (x : Option Json) (d : Json) : Json :=
  match x with
  | some v => if truthy v then v else d
  | none => d

/-- Decode one stored task object.  The JavaScript code performs no
validation here — it installs whatever `JSON.parse` produced; this
exact-shape decoder covers every blob the writer (`saveData`) can
produce, which is all the round-trip and failure claims quantify
over. -/
def jsonToTask : Json → Option Task
  | .obj (.cons "id" (.num id)
      (.cons "task" (.str task)
        (.cons "project" (.str project)
          (.cons "organization" (.str organization)
            (.cons "dueDate" (.str dueDate)
              (.cons "completed" (.bool completed)
                (.cons "createdAt" (.str createdAt) .nil))))))) =>
    some ⟨id, task, project, organization, dueDate, completed, createdAt⟩
  | _ => none

/-- Decode a stored task array. -/
def jsonArrToTasks : JsonArr → Option (List Task)
  | .nil => some []
  | .cons h t =>
    match jsonToTask h, jsonArrToTasks t with
    | some task, some rest => some (task :: rest)
    | _, _ => none

/-- Decode a stored string array. -/
def jsonArrToStrings : JsonArr → Option (List String)
  | .nil => some []
  | .cons (.str s) t =>
    match jsonArrToStrings t with
    | some rest => some (s :: rest)
    | none => none
  | .cons _ _ => none

/-- Lines 91-96 of `loadData`: read the four fields with their `|| ...`
defaults and install them (exact-shape decoding; see `jsonToTask`). -/
def decodeState (data : Json) : Option AppState :=
  match data with
  | .obj fields =>
    match jsOrElse (getField fields "tasks") (.arr .nil),
        jsOrElse (getField fields "projects") (.arr .nil),
        jsOrElse (getField fields "organizations") (.arr .nil),
        jsOrElse (getField fields "currentSortMode") (.str "date") with
    | .arr ts, .arr ps, .arr os, .str mode =>
      match jsonArrToTasks ts, jsonArrToStrings ps, jsonArrToStrings os with
      | some tasks, some projects, some organizations =>
        some ⟨tasks, projects, organizations, mode⟩
      | _, _, _ => none
    | _, _, _, _ => none
  | _ => none

/-- `saveData` (main.js lines 51-70).  On the `creationStorage` branch
every failure (`btoa` throw, `setItem` rejection) is caught and logged;
on the `localStorage` branch `setItem` is not guarded. -/
def saveData (s : AppState) (env : StorageEnv) : Except String StorageEnv :=
  if env.useCreation then
    match btoa ⟨stringifyVal (stateToJson s)⟩ with
    | some encoded =>
      if env.setFails then Except.ok env
      else Except.ok { env with creationStore := some encoded }
    | none => Except.ok env
  else
    if env.setFails then Except.error "localStorage.setItem failed"
    else Except.ok { env with localStore := some ⟨stringifyVal (stateToJson s)⟩ }

/-- `loadData` (main.js lines 72-97), returning the new in-memory state
given the current one.  On the `creationStorage` branch `getItem`,
`atob` and `JSON.parse` failures are caught (state unchanged); on the
`localStorage` branch `JSON.parse` is *not* inside a `try` and a parse
error propagates to the caller (`Except.error`). -/
def loadData (env : StorageEnv) (current : AppState) : Except String AppState :=
  if env.useCreation then
    if env.getFails then Except.ok current
    else
      match env.creationStore with
      | none => Except.ok current
      | some stored =>
        if stored = "" then Except.ok current
        else
          match atob stored with
          | none => Except.ok current
          | some decoded =>
            match parseJson decoded with
            | none => Except.ok current
            | some data =>
              if truthy data then
                match decodeState data with
                | some s' => Except.ok s'
                | none => Except.ok current
              else Except.ok current
  else
    match env.localStore with
    | none => Except.ok current
    | some stored =>
      if stored = "" then Except.ok current
      else
        match parseJson stored with
        | none => Except.error "SyntaxError in JSON.parse"
        | some data =>
          if truthy data then
            match decodeState data with
            | some s' => Except.ok s'
            | none => Except.ok current
          else Except.ok current

/-- `confirmTask` followed by its `saveData()` call (main.js line 391):
the state change and the resulting storage action. -/
def confirmTaskFull (draft : TaskDraft) (now : Nat) (nowIso : String)
    (s : AppState) (env : StorageEnv) : AppState × Except String StorageEnv :=
  if draft.task = "" then (s, Except.ok env)
  else
    let s' := confirmTask draft now nowIso s
    (s', saveData s' env)

/-! ## The QR application's share-link pipeline (part_000 lines 52-75,
106-130) -/
/-- The form data of `getFormData` (part_000 lines 90-98). -/
structure FormData where
  title : String
  url : String
  description : String
  iconUrl : String
  themeColor : String
deriving DecidableEq, Repr

/-- The serialized form-data object (field insertion order of
`getFormData`). -/
def formToJson (d : FormData) : Json :=
  .obj (.cons "title" (.str d.title)
    (.cons "url" (.str d.url)
      (.cons "description" (.str d.description)
        (.cons "iconUrl" (.str d.iconUrl)
          (.cons "themeColor" (.str d.themeColor) .nil)))))

/-- `Object.values(data).some(value => value && value !== '#FE5000')`
(part_000 line 110). -/
def formHasData (d : FormData) : Bool :=
  [d.title, d.url, d.description, d.iconUrl, d.themeColor].any
    (fun v => v ≠ "" && v ≠ "#FE5000")

/-- The three substitutions of `updateShareURL` (lines 116-119):
`+`→`-`, `/`→`_`, `=` removed.  (Applied in one pass: the replacement
characters are never themselves rewritten.) -/
def b64UrlSubst : List Char → List Char
  | [] => []
  | c :: r =>
    if c = '+' then '-' :: b64UrlSubst r
    else if c = '/' then '_' :: b64UrlSubst r
    else if c = '=' then b64UrlSubst r
    else c :: b64UrlSubst r

/-- The reverse substitutions of `parseURLParameters` (line 59):
`-`→`+`, `_`→`/`. -/
def b64UrlUnsubst : List Char → List Char
  | [] => []
  | c :: r =>
    (if c = '-' then '+' else if c = '_' then '/' else c) :: b64UrlUnsubst r

/-- `updateShareURL` (part_000 lines 106-130): the `jsondata` query
value placed in the share URL, `none` when the form is empty or the
encoding throws (in both cases the share-URL box is cleared). -/
def updateShareURL (d : FormData) : Option String :=
  if formHasData d then
    match btoa ⟨stringifyVal (formToJson d)⟩ with
    | some b => some ⟨b64UrlSubst b.data⟩
    | none => none
  else none

/-- `populateForm` (part_000 lines 77-88) on a parsed value: each of
the five fields is taken when present.  (Exact-shape decoding: every
generated link carries all five as strings.) -/
def jsonToForm : Json → Option FormData
  | .obj (.cons "title" (.str title)
      (.cons "url" (.str url)
        (.cons "description" (.str description)
          (.cons "iconUrl" (.str iconUrl)
            (.cons "themeColor" (.str themeColor) .nil))))) =>
    some ⟨title, url, description, iconUrl, themeColor⟩
  | _ => none

/-- `parseURLParameters` (part_000 lines 52-75) applied to the
`jsondata` query value: reverse the URL-safe substitution, `atob`,
`JSON.parse`, populate the form.  Any failure is caught and reported
(`none`). -/
def parseShareParam (jsondata : String) : Option FormData :=
  match atob ⟨b64UrlUnsubst jsondata.data⟩ with
  | none => none
  | some decoded =>
    match parseJson decoded with
    | none => none
    | some data => jsonToForm data

/-! ## Latin-1 side conditions for `btoa` -/
/-- All code points below 256 (`btoa`'s domain). -/
def latin1 (s : String) : Bool := s.data.all (fun c => c.toNat < 256)

/-- All five string fields of a task are Latin-1. -/
def taskLatin1 (t : Task) : Bool :=
  latin1 t.task && latin1 t.project && latin1 t.organization &&
    latin1 t.dueDate && latin1 t.createdAt

/-- Every string in the state is Latin-1. -/
def stateLatin1 (s : AppState) : Bool :=
  s.tasks.all taskLatin1 && s.projects.all latin1 &&
    s.organizations.all latin1 && latin1 s.currentSortMode

/-- Every string in the form data is Latin-1. -/
def formLatin1 (d : FormData) : Bool :=
  latin1 d.title && latin1 d.url && latin1 d.description &&
    latin1 d.iconUrl && latin1 d.themeColor

mutual
/-- Every string in the JSON value is Latin-1. -/
def jsonLatin1 : Json → Bool
  | .null => true
  | .bool _ => true
  | .num _ => true
  | .str s => latin1 s
  | .arr xs => jsonArrLatin1 xs
  | .obj fs => jsonObjLatin1 fs

/-- Pointwise `jsonLatin1` on an array. -/
def jsonArrLatin1 : JsonArr → Bool
  | .nil => true
  | .cons h t => jsonLatin1 h && jsonArrLatin1 t

/-- Pointwise `jsonLatin1` on the fields (keys here are ASCII
literals). -/
def jsonObjLatin1 : JsonObj → Bool
  | .nil => true
  | .cons k v t => latin1 k && jsonLatin1 v && jsonObjLatin1 t
end

/-! ## Round-trip of the JSON layer -/
/-- "Head is not a digit": the context right of a serialized number. -/
def ndh : List Char → Bool
  | [] => true
  | c :: _ => !isDigitChar c

mutual
/-- Node count of a JSON value (a fuel bound for the recursive
descent). -/
def sizeJson : Json → Nat
  | .null => 1
  | .bool _ => 1
  | .num _ => 1
  | .str _ => 1
  | .arr xs => sizeArr xs + 1
  | .obj fs => sizeObj fs + 1

/-- Node count of an array. -/
def sizeArr : JsonArr → Nat
  | .nil => 0
  | .cons h t => sizeJson h + sizeArr t + 1

/-- Node count of an object. -/
def sizeObj : JsonObj → Nat
  | .nil => 0
  | .cons _ v t => sizeJson v + sizeObj t + 1
end

/-- The first character of a serialized value exists and is neither a
closing bracket nor a closing brace. -/
def headOk : List Char → Prop
  | [] => False
  | c :: _ => c ≠ ']' ∧ c ≠ '}' ∧ c ≠ ','

/-! ## Claim C1: the persistence round-trip -/
def cexC1State : AppState :=
  ⟨[⟨1, "Fix ☃ bug", "", "", "", false, "2026-01-01T00:00:00.000Z"⟩],
    [], [], "date"⟩

def cexC1Env : StorageEnv := ⟨true, false, false, none, none⟩

def wState : AppState :=
  ⟨[⟨5, "Fix bug", "WebApp", "Org", "2099-01-01", false,
     "2026-01-01T00:00:00.000Z"⟩], ["WebApp"], ["Org"], "date"⟩

/-! ## Claim C6: failure behaviour of the persistence layer -/
def cexC6Env : StorageEnv := ⟨false, false, false, none, some "not json"⟩

def wForm : FormData := ⟨"My QR", "https://example.com", "", "", "#FE5000"⟩

/-! ## Theorems -/

theorem data_lt_iff {a b : String} : a.data < b.data ↔ a < b :=
  Iff.symm String.lt_iff_toList_lt

/-! ### Order facts about the comparators -/
theorem localeCompare_ne_gt {a b : String} :
    (localeCompare a b ≠ Ordering.gt) ↔ a ≤ b := by
  unfold localeCompare
  simp only [data_lt_iff]
  split_ifs with h1 h2
  · simp only [ne_eq, reduceCtorEq, not_false_eq_true, true_iff]
    exact le_of_lt h1
  · subst h2
    simp
  · simp only [ne_eq, not_true_eq_false, false_iff, not_le]
    exact lt_of_le_of_ne (le_of_not_lt h1) (fun h => h2 h.symm)

theorem localeCompare_self (a : String) : localeCompare a a = Ordering.eq := by
  simp [localeCompare]

theorem leDate_iff (a b : Task) :
    leDate a b = true ↔
      (if a.dueDate = "" ∧ b.dueDate = "" then b.createdAt ≤ a.createdAt
       else if a.dueDate = "" then False
       else if b.dueDate = "" then True
       else a.dueDate ≤ b.dueDate) := by
  unfold leDate cmpDate
  by_cases ha : a.dueDate = "" <;> by_cases hb : b.dueDate = "" <;>
    simp [ha, hb, localeCompare_ne_gt, decide_eq_true_eq]

theorem leProject_iff (a b : Task) :
    leProject a b = true ↔
      (if a.project = b.project then leDate a b = true
       else if a.project = "" then False
       else if b.project = "" then True
       else a.project ≤ b.project) := by
  unfold leProject cmpProject leDate
  by_cases hab : a.project = b.project
  · simp [hab]
  · by_cases ha : a.project = "" <;> by_cases hb : b.project = "" <;>
      simp [hab, ha, hb, localeCompare_ne_gt]

theorem leDate_trans : ∀ a b c : Task,
    leDate a b → leDate b c → leDate a c := by
  intro a b c hab hbc
  rw [leDate_iff] at *
  by_cases ha : a.dueDate = "" <;> by_cases hb : b.dueDate = "" <;>
    by_cases hc : c.dueDate = "" <;>
    simp_all <;>
    first
      | exact le_trans hbc hab
      | exact le_trans hab hbc

theorem leDate_total : ∀ a b : Task, leDate a b || leDate b a := by
  intro a b
  rw [Bool.or_eq_true, leDate_iff, leDate_iff]
  by_cases ha : a.dueDate = "" <;> by_cases hb : b.dueDate = "" <;>
    simp_all [le_total]

theorem leProject_trans : ∀ a b c : Task,
    leProject a b → leProject b c → leProject a c := by
  intro a b c hab hbc
  rw [leProject_iff] at *
  by_cases hab' : a.project = b.project <;> by_cases hbc' : b.project = c.project
  · simp_all
    exact leDate_trans a b c hab hbc
  · simp_all
  · simp_all
  · by_cases hac : a.project = c.project
    · exfalso
      rw [if_neg hab'] at hab
      rw [if_neg hbc'] at hbc
      by_cases ha : a.project = ""
      · rw [if_pos ha] at hab
        exact hab
      · by_cases hb : b.project = ""
        · rw [if_pos hb] at hbc
          exact hbc
        · rw [if_neg ha, if_neg hb] at hab
          by_cases hc : c.project = ""
          · exact ha (hac.trans hc)
          · rw [if_neg hb, if_neg hc] at hbc
            rw [← hac] at hbc
            exact hab' (le_antisymm hab hbc)
    · by_cases ha : a.project = "" <;> by_cases hb : b.project = "" <;>
        by_cases hc : c.project = "" <;>
        (simp_all; all_goals exact le_trans hab hbc)

theorem leProject_total : ∀ a b : Task, leProject a b || leProject b a := by
  intro a b
  rw [Bool.or_eq_true, leProject_iff, leProject_iff]
  by_cases hab : a.project = b.project
  · have hba : b.project = a.project := hab.symm
    rw [if_pos hab, if_pos hba]
    simpa using leDate_total a b
  · have hba : ¬ b.project = a.project := fun h => hab h.symm
    rw [if_neg hab, if_neg hba]
    by_cases ha : a.project = ""
    · have hb : ¬ b.project = "" := fun h => hab (ha.trans h.symm)
      right
      rw [if_neg hb, if_pos ha]
      trivial
    · by_cases hb : b.project = ""
      · left
        rw [if_neg ha, if_pos hb]
        trivial
      · rcases le_total a.project b.project with h | h
        · left
          rw [if_neg ha, if_neg hb]
          exact h
        · right
          rw [if_neg hb, if_neg ha]
          exact h

theorem localeCompare_eq_iff {a b : String} :
    localeCompare a b = Ordering.eq ↔ a = b := by
  unfold localeCompare
  simp only [data_lt_iff]
  split_ifs with h1 h2
  · simp only [reduceCtorEq, false_iff]
    exact ne_of_lt h1
  · simp [h2]
  · simp only [reduceCtorEq, false_iff]
    exact h2

theorem localeCompare_lt_iff {a b : String} :
    localeCompare a b = Ordering.lt ↔ a < b := by
  unfold localeCompare
  simp only [data_lt_iff]
  split_ifs with h1 h2
  · simp [h1]
  · simp only [reduceCtorEq, false_iff, not_lt]
    exact le_of_eq h2.symm
  · simp only [reduceCtorEq, false_iff]
    exact h1

theorem localeCompare_swap (a b : String) :
    localeCompare b a = (localeCompare a b).swap := by
  rcases lt_trichotomy a b with h | h | h
  · rw [localeCompare_lt_iff.mpr h]
    unfold localeCompare
    simp only [data_lt_iff]
    rw [if_neg (asymm h), if_neg (ne_of_gt h)]
    rfl
  · subst h
    rw [localeCompare_self]
    rfl
  · rw [localeCompare_lt_iff.mpr h]
    unfold localeCompare
    simp only [data_lt_iff]
    rw [if_neg (asymm h), if_neg (ne_of_gt h)]
    rfl

theorem cmpDate_swap (a b : Task) : cmpDate b a = (cmpDate a b).swap := by
  unfold cmpDate
  by_cases ha : a.dueDate = "" <;> by_cases hb : b.dueDate = "" <;>
    simp [ha, hb, Ordering.swap] <;>
    exact localeCompare_swap _ _

theorem cmpProject_swap (a b : Task) :
    cmpProject b a = (cmpProject a b).swap := by
  unfold cmpProject
  by_cases hab : a.project = b.project
  · rw [if_neg (fun h => h hab.symm), if_neg (fun h => h hab)]
    exact cmpDate_swap a b
  · have hba : ¬ b.project = a.project := fun h => hab h.symm
    rw [if_pos hba, if_pos hab]
    by_cases ha : a.project = "" <;> by_cases hb : b.project = "" <;>
      simp [ha, hb, Ordering.swap] <;>
      first
        | exact absurd (ha.trans hb.symm) hab
        | exact localeCompare_swap _ _

theorem leDate_iff_spec (a b : Task) : leDate a b = true ↔ specLeDate a b := by
  rw [leDate_iff]
  unfold specLeDate
  by_cases ha : a.dueDate = "" <;> by_cases hb : b.dueDate = "" <;>
    simp [ha, hb]

theorem leProject_iff_spec (a b : Task) :
    leProject a b = true ↔ specLeProject a b := by
  rw [leProject_iff]
  unfold specLeProject
  by_cases hab : a.project = b.project
  · simp [hab, leDate_iff_spec]
  · by_cases ha : a.project = "" <;> by_cases hb : b.project = ""
    · exact absurd (ha.trans hb.symm) hab
    · have hb' : ¬ "" = b.project := fun h => hb h.symm
      simp [hab, ha, hb, hb']
    · simp [hab, ha, hb]
    · simp [hab, ha, hb]

/-- `sortTasks` for a given mode string is `mergeSort` by the
corresponding boolean relation. -/
theorem sortTasks_eq (mode : String) (ts : List Task) :
    sortTasks mode ts =
      if mode = "date" then ts.mergeSort leDate else ts.mergeSort leProject := by
  unfold sortTasks
  by_cases h : mode = "date"
  · rw [if_pos h]
    congr 1
    funext a b
    simp [taskCmp, leDate, h]
  · rw [if_neg h]
    congr 1
    funext a b
    simp [taskCmp, leProject, h]

theorem sortTasks_date (ts : List Task) :
    sortTasks "date" ts = ts.mergeSort leDate :=
  (sortTasks_eq "date" ts).trans (if_pos rfl)

theorem sortTasks_project (ts : List Task) :
    sortTasks "project" ts = ts.mergeSort leProject :=
  (sortTasks_eq "project" ts).trans (if_neg (by decide))

/-- Claim C2: for every task list, `sortTasks` in mode `byDueDate`
(`'date'`) returns a permutation of the tasks ordered by the spec's
due-date rule (dated tasks ascending by date string, undated tasks after
all dated ones and among themselves by descending creation time), and in
mode `byProject` (`'project'`) a permutation ordered primarily by project
name ascending with empty-project tasks last, ties within a project
broken by the due-date rule. -/
theorem claim_C2 (ts : List Task) :
    (sortTasks "date" ts).Perm ts ∧
    (sortTasks "date" ts).Pairwise specLeDate ∧
    (sortTasks "project" ts).Perm ts ∧
    (sortTasks "project" ts).Pairwise specLeProject := by
  refine ⟨?_, ?_, ?_, ?_⟩
  · rw [sortTasks_date]
    exact List.mergeSort_perm ts leDate
  · rw [sortTasks_date]
    exact (List.sorted_mergeSort leDate_trans leDate_total ts).imp
      (fun h => (leDate_iff_spec _ _).mp h)
  · rw [sortTasks_project]
    exact List.mergeSort_perm ts leProject
  · rw [sortTasks_project]
    exact (List.sorted_mergeSort leProject_trans leProject_total ts).imp
      (fun h => (leProject_iff_spec _ _).mp h)

/-- Claim C2 witness: on a concrete list the sorted order is as the
spec describes. -/
theorem claim_C2_witness :
    (sortTasks "date" []).Perm ([] : List Task) ∧
    (sortTasks "date" []).Pairwise specLeDate ∧
    (sortTasks "project" []).Perm ([] : List Task) ∧
    (sortTasks "project" []).Pairwise specLeProject :=
  claim_C2 []

theorem cmpDate_eq_iff (a b : Task) :
    cmpDate a b = Ordering.eq ↔ dateKeysEq a b := by
  unfold cmpDate dateKeysEq
  by_cases ha : a.dueDate = "" <;> by_cases hb : b.dueDate = ""
  · rw [if_pos ⟨ha, hb⟩, localeCompare_eq_iff]
    simp [ha, hb, eq_comm]
  · rw [if_neg (fun h => hb h.2), if_pos ha]
    simp [ha, hb]
  · rw [if_neg (fun h => ha h.1), if_neg ha, if_pos hb]
    simp [ha, hb]
  · rw [if_neg (fun h => ha h.1), if_neg ha, if_neg hb, localeCompare_eq_iff]
    simp [ha, hb]

theorem cmpProject_eq_iff (a b : Task) :
    cmpProject a b = Ordering.eq ↔ projectKeysEq a b := by
  unfold cmpProject projectKeysEq
  by_cases hab : a.project = b.project
  · rw [if_neg (fun h => h hab)]
    simp [hab, cmpDate_eq_iff]
  · rw [if_pos hab]
    by_cases ha : a.project = "" <;> by_cases hb : b.project = ""
    · exact absurd (ha.trans hb.symm) hab
    · rw [if_pos ha]
      simp [hab]
    · rw [if_neg ha, if_pos hb]
      simp [hab]
    · rw [if_neg ha, if_neg hb]
      simp only [localeCompare_eq_iff]
      simp [hab]

/-- Claim C3 counterexample: `cexTaskA` and `cexTaskB` are distinct, yet
in both sort modes the comparison of `sortTasks` puts neither before the
other (the comparator returns `0` both ways): the remaining tie is not
resolved by reverse creation time, refuting "exactly one of `a` before
`b`, or `b` before `a`, holds" for every pair of distinct tasks. -/
theorem claim_C3_counterexample :
    cexTaskA ≠ cexTaskB ∧
    taskCmp "date" cexTaskA cexTaskB ≠ Ordering.lt ∧
    taskCmp "date" cexTaskB cexTaskA ≠ Ordering.lt ∧
    taskCmp "project" cexTaskA cexTaskB ≠ Ordering.lt ∧
    taskCmp "project" cexTaskB cexTaskA ≠ Ordering.lt := by
  refine ⟨by decide, ?_, ?_, ?_, ?_⟩ <;> decide

/-- Claim C3 amended: the comparison is decisive (exactly one of `a`
before `b`, `b` before `a`) whenever the mode's sort keys differ — due
date / creation-time keys in mode `byDueDate`, additionally the project
key in mode `byProject`; tasks whose mode keys all tie compare as equal
in both directions (there is no further fallback).  Applying `sortTasks`
twice yields the same order as applying it once. -/
theorem claim_C3_amended :
    (∀ mode ts, sortTasks mode (sortTasks mode ts) = sortTasks mode ts) ∧
    (∀ a b : Task, ¬ dateKeysEq a b →
      (cmpDate a b = Ordering.lt ↔ ¬ cmpDate b a = Ordering.lt)) ∧
    (∀ a b : Task, ¬ projectKeysEq a b →
      (cmpProject a b = Ordering.lt ↔ ¬ cmpProject b a = Ordering.lt)) := by
  refine ⟨?_, ?_, ?_⟩
  · intro mode ts
    rw [sortTasks_eq, sortTasks_eq]
    by_cases h : mode = "date"
    · rw [if_pos h, if_pos h]
      exact List.mergeSort_of_sorted
        (List.sorted_mergeSort leDate_trans leDate_total ts)
    · rw [if_neg h, if_neg h]
      exact List.mergeSort_of_sorted
        (List.sorted_mergeSort leProject_trans leProject_total ts)
  · intro a b h
    have hne : cmpDate a b ≠ Ordering.eq := fun he => h ((cmpDate_eq_iff a b).mp he)
    have hswap := cmpDate_swap a b
    rcases hab : cmpDate a b with _ | _ | _
    · rw [hab] at hswap
      rw [hswap]
      decide
    · exact absurd hab hne
    · rw [hab] at hswap
      rw [hswap]
      decide
  · intro a b h
    have hne : cmpProject a b ≠ Ordering.eq :=
      fun he => h ((cmpProject_eq_iff a b).mp he)
    have hswap := cmpProject_swap a b
    rcases hab : cmpProject a b with _ | _ | _
    · rw [hab] at hswap
      rw [hswap]
      decide
    · exact absurd hab hne
    · rw [hab] at hswap
      rw [hswap]
      decide

/-- Claim C3 amended, witness: idempotence on a concrete list and
decisiveness on concrete tasks with differing keys. -/
theorem claim_C3_amended_witness :
    sortTasks "date" (sortTasks "date" [cexTaskA, cexTaskB, cexTaskC]) =
      sortTasks "date" [cexTaskA, cexTaskB, cexTaskC] ∧
    (cmpDate cexTaskA cexTaskC = Ordering.lt ↔
      ¬ cmpDate cexTaskC cexTaskA = Ordering.lt) ∧
    (cmpProject cexTaskA cexTaskC = Ordering.lt ↔
      ¬ cmpProject cexTaskC cexTaskA = Ordering.lt) :=
  ⟨claim_C3_amended.1 "date" [cexTaskA, cexTaskB, cexTaskC],
   claim_C3_amended.2.1 cexTaskA cexTaskC (by decide),
   claim_C3_amended.2.2 cexTaskA cexTaskC (by decide)⟩

/-- Claim C8 counterexample: two `confirmTask` calls in the same
millisecond (`Date.now()` returns 1700000000000 twice) produce two
distinct tasks with the same id — the add does not assign "a fresh id
not already present", and the resulting reachable state violates id
uniqueness. -/
theorem claim_C8_counterexample :
    ((confirmTask cexDraft2 1700000000000 "2023-11-14T22:13:20.000Z"
        (confirmTask cexDraft1 1700000000000 "2023-11-14T22:13:20.000Z"
          emptyState)).tasks.map Task.id).Nodup = False := by
  decide

/-- Claim C8 amended: `confirmTask` assigns `Date.now()` as the id, so
uniqueness is preserved exactly when the add's timestamp is not already
an id in the list (e.g. a strictly increasing clock); two adds in the
same millisecond duplicate the id. -/
theorem claim_C8_amended (draft : TaskDraft) (now : Nat) (nowIso : String)
    (s : AppState) (hnd : (s.tasks.map Task.id).Nodup)
    (hfresh : now ∉ s.tasks.map Task.id) :
    ((confirmTask draft now nowIso s).tasks.map Task.id).Nodup := by
  have key : ∀ t : Task, t.id = now →
      ((s.tasks ++ [t]).map Task.id).Nodup := by
    intro t ht
    rw [List.map_append, List.nodup_append]
    refine ⟨hnd, List.nodup_singleton _, fun x hx hmem => ?_⟩
    simp only [List.map_cons, List.map_nil, List.mem_singleton, ht] at hmem
    subst hmem
    exact hfresh hx
  unfold confirmTask
  split_ifs with h
  · exact hnd
  all_goals exact key _ rfl

/-- Claim C8 amended, witness: adding at a fresh timestamp to a state
that already has a task keeps ids unique. -/
theorem claim_C8_amended_witness :
    ((confirmTask cexDraft2 1700000000001 "2023-11-14T22:13:20.001Z"
        (confirmTask cexDraft1 1700000000000 "2023-11-14T22:13:20.000Z"
          emptyState)).tasks.map Task.id).Nodup :=
  claim_C8_amended cexDraft2 1700000000001 "2023-11-14T22:13:20.001Z"
    _ (by decide) (by decide)

/-! ### Claim C10: whitespace-only task text -/
/-- Claim C10: `confirmTask` accepts a whitespace-only draft text (the
guard only rejects the empty string), appending the task with its text
untrimmed, whereas `saveEdit` trims the entered text and rejects
whitespace-only input as empty, leaving the state unchanged — the two
operations disagree on whitespace-only descriptions. -/
theorem claim_C10 (ws : String) (hne : ws ≠ "") (htrim : jsTrim ws = "")
    (now : Nat) (nowIso : String) (s : AppState) :
    (confirmTask ⟨ws, "", "", ""⟩ now nowIso s).tasks =
      s.tasks ++ [⟨now, ws, "", "", "", false, nowIso⟩] ∧
    (∀ (id : Nat) (inputProject inputOrg inputDue : String)
       (promptProject promptOrg : Option String) (s' : AppState),
       saveEdit (some id) ws inputProject inputOrg inputDue
         promptProject promptOrg s' = s') := by
  constructor
  · unfold confirmTask
    rw [if_neg hne]
  · intro id inputProject inputOrg inputDue promptProject promptOrg s'
    simp [saveEdit, htrim]

/-- Claim C10 witness: the single-space description `" "` is accepted by
`confirmTask` and rejected by `saveEdit`. -/
theorem claim_C10_witness :
    (confirmTask ⟨" ", "", "", ""⟩ 1700000000000 "2023-11-14T22:13:20.000Z"
        emptyState).tasks =
      emptyState.tasks ++
        [⟨1700000000000, " ", "", "", "", false, "2023-11-14T22:13:20.000Z"⟩] ∧
    (∀ (id : Nat) (inputProject inputOrg inputDue : String)
       (promptProject promptOrg : Option String) (s' : AppState),
       saveEdit (some id) " " inputProject inputOrg inputDue
         promptProject promptOrg s' = s') :=
  claim_C10 " " (by decide) (by decide) 1700000000000
    "2023-11-14T22:13:20.000Z" emptyState

theorem escChars_not_lt (c : Char) : '<' ∉ escChars c := by
  unfold escChars
  split_ifs with h1 h2 h3
  · decide
  · decide
  · decide
  · simp only [List.mem_singleton]
    exact fun h => h2 h.symm

theorem escChars_not_gt (c : Char) : '>' ∉ escChars c := by
  unfold escChars
  split_ifs with h1 h2 h3
  · decide
  · decide
  · decide
  · simp only [List.mem_singleton]
    exact fun h => h3 h.symm

theorem escChars_ne_nil (c : Char) : escChars c ≠ [] := by
  unfold escChars
  split_ifs <;> simp

theorem ampEscaped_escChars_append (c : Char) (l : List Char) :
    ampEscaped (escChars c ++ l) = ampEscaped l := by
  unfold escChars
  split_ifs with h1 h2 h3
  · show ampEscaped ('&' :: 'a' :: 'm' :: 'p' :: ';' :: l) = ampEscaped l
    rw [ampEscaped]
    simp
  · show ampEscaped ('&' :: 'l' :: 't' :: ';' :: l) = ampEscaped l
    rw [ampEscaped]
    simp
  · show ampEscaped ('&' :: 'g' :: 't' :: ';' :: l) = ampEscaped l
    rw [ampEscaped]
    simp
  · show ampEscaped (c :: l) = ampEscaped l
    rw [ampEscaped, if_neg h1]

theorem escListChars_not_lt (l : List Char) : '<' ∉ escListChars l := by
  induction l with
  | nil => simp [escListChars]
  | cons c cs ih =>
    simp only [escListChars, List.mem_append]
    rintro (h | h)
    · exact escChars_not_lt c h
    · exact ih h

theorem escListChars_not_gt (l : List Char) : '>' ∉ escListChars l := by
  induction l with
  | nil => simp [escListChars]
  | cons c cs ih =>
    simp only [escListChars, List.mem_append]
    rintro (h | h)
    · exact escChars_not_gt c h
    · exact ih h

theorem ampEscaped_escListChars (l : List Char) :
    ampEscaped (escListChars l) = true := by
  induction l with
  | nil =>
    rw [escListChars, ampEscaped]
  | cons c cs ih =>
    rw [escListChars, ampEscaped_escChars_append]
    exact ih

theorem escapeHtml_eq_empty_iff (s : String) : escapeHtml s = "" ↔ s = "" := by
  obtain ⟨l⟩ := s
  unfold escapeHtml
  cases l with
  | nil => simp [escListChars]
  | cons c cs =>
    constructor
    · intro h
      exfalso
      have : escListChars (c :: cs) = [] := congrArg String.data h
      rw [escListChars] at this
      rcases List.append_eq_nil.mp this with ⟨h1, _⟩
      exact escChars_ne_nil c h1
    · intro h
      exact absurd (congrArg String.data h) (by simp)

theorem renderTaskItem_escape (now : Int) (t : Task) :
    renderTaskItem now t =
      renderTaskItemWith (fun s => s) now (escapeFields t) := by
  unfold renderTaskItem renderTaskItemWith
  have h1 : (escapeFields t).completed = t.completed := rfl
  have h2 : (escapeFields t).id = t.id := rfl
  have h3 : (escapeFields t).task = escapeHtml t.task := rfl
  have h4 : (escapeFields t).project = escapeHtml t.project := rfl
  have h5 : (escapeFields t).organization = escapeHtml t.organization := rfl
  have h6 : (escapeFields t).dueDate = t.dueDate := rfl
  have hov : isOverdue now (escapeFields t) = isOverdue now t := rfl
  rw [h1, h2, h3, h4, h5, h6, hov]
  simp only [escapeHtml_eq_empty_iff]

/-- Claim C4: for every task list (either sort mode, any current time),
the markup produced by `renderTasks` embeds the user-supplied text
fields (task title, project name, organization name) only through
`escapeHtml`, and `escapeHtml` output never contains a raw `<` or `>`
and every `&` in it starts one of the inserted escape entities — so no
`<`, `>` or `&` from user text reaches the markup unescaped. -/
theorem claim_C4 (mode : String) (now : Int) (ts : List Task) :
    renderTasks mode now ts =
      (if ts = [] then ""
       else String.join ((sortTasks mode ts).map
         (fun t => renderTaskItemWith (fun s => s) now (escapeFields t)))) ∧
    (∀ s : String,
      '<' ∉ (escapeHtml s).data ∧ '>' ∉ (escapeHtml s).data ∧
        ampEscaped (escapeHtml s).data = true) := by
  constructor
  · unfold renderTasks
    have hmap : List.map (renderTaskItem now) (sortTasks mode ts) =
        List.map (fun t => renderTaskItemWith (fun s => s) now (escapeFields t))
          (sortTasks mode ts) :=
      List.map_congr_left (fun t _ => renderTaskItem_escape now t)
    rw [hmap]
  · intro s
    exact ⟨escListChars_not_lt s.data, escListChars_not_gt s.data,
      ampEscaped_escListChars s.data⟩

/-- Claim C5 counterexample: at noon UTC of 2026-10-11 — the same civil
date as the task's due date, so the due date is *not* strictly before
the current date — the overdue test of `renderTasks` is nevertheless
true: the code compares the due date's midnight with the current
*instant* (`new Date(dueDate) < new Date()`), so a task due today is
marked overdue, contradicting the claim. -/
theorem claim_C5_counterexample :
    isOverdue (msPerDay * daysFromCivil 2026 10 11 + 43200000)
        cexTodayTask = true ∧
    (msPerDay * daysFromCivil 2026 10 11 + 43200000) / msPerDay =
      daysFromCivil 2026 10 11 ∧
    parseDateMs cexTodayTask.dueDate =
      some (msPerDay * daysFromCivil 2026 10 11) ∧
    cexTodayTask.completed = false := by
  refine ⟨?_, ?_, ?_, ?_⟩ <;> decide

/-- Claim C5 amended: the rendered due-date tag carries the "overdue"
marker iff the task has a due date that parses to a valid date whose
UTC midnight is strictly before the current *instant* and the task is
not completed.  (Hence a task due today is marked overdue at any time
after that day's start, and a task due yesterday is always marked.)
Toggling the task to completed removes the marker. -/
theorem claim_C5_amended (now : Int) (t : Task) :
    (isOverdue now t = true ↔
      t.dueDate ≠ "" ∧ t.completed = false ∧
        (∃ ms, parseDateMs t.dueDate = some ms ∧ ms < now)) ∧
    isOverdue now { t with completed := true } = false := by
  constructor
  · unfold isOverdue
    rcases h : parseDateMs t.dueDate with _ | ms
    · simp [h]
    · simp [h]
      tauto
  · unfold isOverdue
    simp

theorem natToDigitsAux_eq (fuel : Nat) :
    ∀ n acc, n ≤ fuel →
      natToDigitsAux fuel n acc = natToDigitsAux n n [] ++ acc := by
  induction fuel using Nat.strongRecOn with
  | _ fuel ih =>
    intro n acc h
    match fuel, h with
    | 0, h =>
      have hn : n = 0 := Nat.le_zero.mp h
      subst hn
      rfl
    | fuel + 1, h =>
      rw [natToDigitsAux]
      by_cases h10 : n < 10
      · rw [if_pos h10]
        match n, h10 with
        | 0, _ => rfl
        | m + 1, h10 =>
          rw [natToDigitsAux, if_pos h10]
          rfl
      · rw [if_neg h10]
        have hge : 10 ≤ n := Nat.le_of_not_lt h10
        have hdivlt : n / 10 < n := Nat.div_lt_self (by omega) (by omega)
        have h1 : n / 10 ≤ fuel := by omega
        rw [ih fuel (Nat.lt_succ_self fuel) (n / 10) _ h1]
        match n, hge with
        | m + 1, hge =>
          rw [natToDigitsAux, if_neg h10]
          have h2 : (m + 1) / 10 ≤ m := by omega
          have hmlt : m < fuel + 1 := by omega
          rw [ih m hmlt ((m + 1) / 10) _ h2]
          simp

theorem natRepr_lt (n : Nat) (h : n < 10) : (natRepr n).data = [digitChar n] := by
  show natToDigitsAux n n [] = [digitChar n]
  match n, h with
  | 0, _ => rfl
  | m + 1, h =>
    rw [natToDigitsAux, if_pos h]

theorem natRepr_ge (n : Nat) (h : 10 ≤ n) :
    (natRepr n).data = (natRepr (n / 10)).data ++ [digitChar (n % 10)] := by
  show natToDigitsAux n n [] = natToDigitsAux (n / 10) (n / 10) [] ++ _
  match n, h with
  | m + 1, h =>
    rw [natToDigitsAux, if_neg (by omega)]
    exact natToDigitsAux_eq m ((m + 1) / 10) _ (by omega)

theorem digitChar_spec : ∀ m < 10,
    digitVal (digitChar m) = m ∧ isDigitChar (digitChar m) = true := by
  decide

theorem natRepr_ne_nil (n : Nat) : (natRepr n).data ≠ [] := by
  induction n using Nat.strongRecOn with
  | _ n ih =>
    by_cases h : n < 10
    · rw [natRepr_lt n h]
      simp
    · rw [natRepr_ge n (by omega)]
      simp

theorem natRepr_all_digit (n : Nat) :
    ∀ c ∈ (natRepr n).data, isDigitChar c = true := by
  induction n using Nat.strongRecOn with
  | _ n ih =>
    by_cases h : n < 10
    · rw [natRepr_lt n h]
      intro c hc
      rw [List.mem_singleton] at hc
      subst hc
      exact (digitChar_spec n h).2
    · rw [natRepr_ge n (by omega)]
      intro c hc
      rcases List.mem_append.mp hc with hc | hc
      · exact ih (n / 10) (Nat.div_lt_self (by omega) (by omega)) c hc
      · rw [List.mem_singleton] at hc
        subst hc
        exact (digitChar_spec (n % 10) (Nat.mod_lt n (by omega))).2

theorem natRepr_foldl (n : Nat) :
    (natRepr n).data.foldl (fun acc c => 10 * acc + digitVal c) 0 = n := by
  induction n using Nat.strongRecOn with
  | _ n ih =>
    by_cases h : n < 10
    · rw [natRepr_lt n h]
      simp [(digitChar_spec n h).1]
    · rw [natRepr_ge n (by omega), List.foldl_append]
      rw [ih (n / 10) (Nat.div_lt_self (by omega) (by omega))]
      simp only [List.foldl_cons, List.foldl_nil]
      rw [(digitChar_spec (n % 10) (Nat.mod_lt n (by omega))).1]
      omega

theorem dropWhile_digits_append (cs rest : List Char)
    (hcs : ∀ c ∈ cs, isDigitChar c = true) (hrest : ndh rest = true) :
    (cs ++ rest).dropWhile isDigitChar = rest := by
  induction cs with
  | nil =>
    cases rest with
    | nil => rfl
    | cons c r =>
      have : isDigitChar c = false := by
        rw [ndh] at hrest
        simpa using hrest
      simp [List.dropWhile, this]
  | cons c cs ihc =>
    rw [List.cons_append, List.dropWhile_cons_of_pos (by simp [hcs c (by simp)])]
    exact ihc (fun x hx => hcs x (by simp [hx]))

theorem parseNat_natRepr (n : Nat) (rest : List Char) (h : ndh rest = true) :
    parseNat ((natRepr n).data ++ rest) = some (n, rest) := by
  unfold parseNat
  have htake : ((natRepr n).data ++ rest).takeWhile isDigitChar = (natRepr n).data := by
    rw [List.takeWhile_append_of_pos (natRepr_all_digit n)]
    cases rest with
    | nil => simp
    | cons c r =>
      have : isDigitChar c = false := by
        rw [ndh] at h
        simpa using h
      simp [List.takeWhile, this]
  rw [htake, dropWhile_digits_append _ _ (natRepr_all_digit n) h]
  simp [List.isEmpty_eq_false.mpr (natRepr_ne_nil n), natRepr_foldl n]

theorem hexVal_hexDigit : ∀ v < 16, hexVal (hexDigit v) = some v := by
  decide

theorem parseStr_roundtrip (s : List Char) : ∀ (F : Nat) (rest : List Char),
    s.length < F →
    parseStr F (escJsonList s ++ '"' :: rest) = some (s, rest) := by
  induction s with
  | nil =>
    intro F rest hF
    match F, hF with
    | F + 1, _ =>
      rw [escJsonList, List.nil_append, parseStr]
      simp
  | cons c cs ih =>
    intro F rest hF
    match F, hF with
    | F + 1, hF =>
      have hcs : cs.length < F := by
        simp only [List.length_cons] at hF
        omega
      rw [escJsonList, List.append_assoc]
      unfold escJsonChar
      split_ifs with h1 h2 h3 h4 h5 h6 h7 h8
      · subst h1
        rw [show ((['\\', '"'] : List Char) ++ (escJsonList cs ++ '"' :: rest)) =
          '\\' :: '"' :: (escJsonList cs ++ '"' :: rest) from rfl]
        rw [parseStr]
        simp [ih F rest hcs]
      · subst h2
        rw [show ((['\\', '\\'] : List Char) ++ (escJsonList cs ++ '"' :: rest)) =
          '\\' :: '\\' :: (escJsonList cs ++ '"' :: rest) from rfl]
        rw [parseStr]
        simp [ih F rest hcs]
      · subst h3
        rw [show ((['\\', 'b'] : List Char) ++ (escJsonList cs ++ '"' :: rest)) =
          '\\' :: 'b' :: (escJsonList cs ++ '"' :: rest) from rfl]
        rw [parseStr]
        simp [ih F rest hcs]
      · subst h4
        rw [show ((['\\', 't'] : List Char) ++ (escJsonList cs ++ '"' :: rest)) =
          '\\' :: 't' :: (escJsonList cs ++ '"' :: rest) from rfl]
        rw [parseStr]
        simp [ih F rest hcs]
      · subst h5
        rw [show ((['\\', 'n'] : List Char) ++ (escJsonList cs ++ '"' :: rest)) =
          '\\' :: 'n' :: (escJsonList cs ++ '"' :: rest) from rfl]
        rw [parseStr]
        simp [ih F rest hcs]
      · subst h6
        rw [show ((['\\', 'f'] : List Char) ++ (escJsonList cs ++ '"' :: rest)) =
          '\\' :: 'f' :: (escJsonList cs ++ '"' :: rest) from rfl]
        rw [parseStr]
        simp [ih F rest hcs]
      · subst h7
        rw [show ((['\\', 'r'] : List Char) ++ (escJsonList cs ++ '"' :: rest)) =
          '\\' :: 'r' :: (escJsonList cs ++ '"' :: rest) from rfl]
        rw [parseStr]
        simp [ih F rest hcs]
      · -- control character below 32: \u00xx escape
        rw [show ((['\\', 'u', '0', '0', hexDigit (c.toNat / 16),
            hexDigit (c.toNat % 16)] : List Char) ++ (escJsonList cs ++ '"' :: rest)) =
          '\\' :: 'u' :: '0' :: '0' :: hexDigit (c.toNat / 16) ::
            hexDigit (c.toNat % 16) :: (escJsonList cs ++ '"' :: rest) from rfl]
        rw [parseStr]
        simp only [List.take_succ_cons, List.take_zero, List.drop_succ_cons,
          List.drop_zero, List.getD_cons_zero, List.getD_cons_succ,
          List.length_cons, List.cons.injEq, and_true, Char.reduceEq, reduceIte]
        rw [show hexVal '0' = some 0 from by decide]
        rw [hexVal_hexDigit _ (show c.toNat / 16 < 16 from by omega)]
        rw [hexVal_hexDigit _ (show c.toNat % 16 < 16 from by omega)]
        simp only [Option.some_bind]
        rw [if_pos (show 5 ≤ (escJsonList cs ++ '"' :: rest).length + 1 + 1 + 1 + 1 + 1
          from by omega)]
        rw [ih F rest hcs]
        simp only [Option.map_some']
        rw [show ((0 * 16 + 0) * 16 + c.toNat / 16) * 16 + c.toNat % 16 = c.toNat
          from by omega, Char.ofNat_toNat]
      · -- plain character
        rw [List.singleton_append, parseStr]
        rw [if_neg h1, if_neg h2]
        simp [ih F rest hcs]

theorem sizeJson_pos (j : Json) : 1 ≤ sizeJson j := by
  cases j <;> simp [sizeJson]

theorem escJsonChar_ne_nil (c : Char) : escJsonChar c ≠ [] := by
  unfold escJsonChar
  split_ifs <;> simp

theorem escJsonList_length_ge (l : List Char) :
    l.length ≤ (escJsonList l).length := by
  induction l with
  | nil => simp [escJsonList]
  | cons c cs ih =>
    rw [escJsonList, List.length_append, List.length_cons]
    have := List.length_pos.mpr (escJsonChar_ne_nil c)
    omega

theorem isDigitChar_ne (c : Char) (h : isDigitChar c = true) :
    c ≠ ']' ∧ c ≠ '}' ∧ c ≠ ',' ∧ c ≠ 'n' ∧ c ≠ 't' ∧ c ≠ 'f' ∧
      c ≠ '"' ∧ c ≠ '[' ∧ c ≠ '{' := by
  unfold isDigitChar at h
  refine ⟨?_, ?_, ?_, ?_, ?_, ?_, ?_, ?_, ?_⟩ <;>
    (intro he; subst he; exact absurd h (by decide))

theorem stringifyVal_headOk (j : Json) : headOk (stringifyVal j) := by
  cases j with
  | null => exact ⟨by decide, by decide, by decide⟩
  | bool b => cases b <;> exact ⟨by decide, by decide, by decide⟩
  | num n =>
    show headOk (natRepr n).data
    rcases hd : (natRepr n).data with _ | ⟨d, ds⟩
    · exact absurd hd (natRepr_ne_nil n)
    · have hdig : isDigitChar d = true := by
        apply natRepr_all_digit n
        rw [hd]
        simp
      obtain ⟨h1, h2, h3, _⟩ := isDigitChar_ne d hdig
      exact ⟨h1, h2, h3⟩
  | str s => exact ⟨by decide, by decide, by decide⟩
  | arr xs => exact ⟨by decide, by decide, by decide⟩
  | obj fs => exact ⟨by decide, by decide, by decide⟩

theorem stringifyArr_cons_eq (h : Json) (t : JsonArr) :
    ∃ tail, stringifyArr (.cons h t) = stringifyVal h ++ tail := by
  cases t with
  | nil => exact ⟨[], by simp [stringifyArr]⟩
  | cons h2 t2 => exact ⟨',' :: stringifyArr (.cons h2 t2), rfl⟩

mutual
theorem parseVal_stringify : ∀ (j : Json) (fuel : Nat) (rest : List Char),
    sizeJson j ≤ fuel → ndh rest = true →
    parseVal fuel (stringifyVal j ++ rest) = some (j, rest)
  | .null, fuel, rest, hs, _ => by
    cases fuel with
    | zero => exact absurd hs (by have := sizeJson_pos .null; omega)
    | succ f =>
      show parseVal (f + 1) ('n' :: 'u' :: 'l' :: 'l' :: rest) = _
      rw [parseVal]
      simp only [List.take_succ_cons, List.take_zero, List.drop_succ_cons,
        List.drop_zero, List.cons.injEq, and_true, and_self, Char.reduceEq,
        reduceIte]
  | .bool true, fuel, rest, hs, _ => by
    cases fuel with
    | zero => exact absurd hs (by have := sizeJson_pos (.bool true); omega)
    | succ f =>
      show parseVal (f + 1) ('t' :: 'r' :: 'u' :: 'e' :: rest) = _
      rw [parseVal]
      simp only [List.take_succ_cons, List.take_zero, List.drop_succ_cons,
        List.drop_zero, List.cons.injEq, and_true, and_self, false_and,
        Char.reduceEq, reduceIte]
  | .bool false, fuel, rest, hs, _ => by
    cases fuel with
    | zero => exact absurd hs (by have := sizeJson_pos (.bool false); omega)
    | succ f =>
      show parseVal (f + 1) ('f' :: 'a' :: 'l' :: 's' :: 'e' :: rest) = _
      rw [parseVal]
      simp only [List.take_succ_cons, List.take_zero, List.drop_succ_cons,
        List.drop_zero, List.cons.injEq, and_true, and_self, false_and,
        Char.reduceEq, reduceIte]
  | .num n, fuel, rest, hs, hr => by
    cases fuel with
    | zero => exact absurd hs (by have := sizeJson_pos (.num n); omega)
    | succ f =>
      show parseVal (f + 1) ((natRepr n).data ++ rest) = _
      rcases hd : (natRepr n).data with _ | ⟨d, ds⟩
      · exact absurd hd (natRepr_ne_nil n)
      · have hdig : isDigitChar d = true := by
          apply natRepr_all_digit n
          rw [hd]
          simp
        obtain ⟨-, -, -, hn, ht, hf, hq, hlb, hob⟩ := isDigitChar_ne d hdig
        rw [List.cons_append, parseVal]
        have c1 : ¬ ((d :: (ds ++ rest)).take 4 = ['n', 'u', 'l', 'l']) := by
          simp only [List.take_succ_cons, List.cons.injEq]
          intro h
          exact hn h.1
        have c2 : ¬ ((d :: (ds ++ rest)).take 4 = ['t', 'r', 'u', 'e']) := by
          simp only [List.take_succ_cons, List.cons.injEq]
          intro h
          exact ht h.1
        have c3 : ¬ ((d :: (ds ++ rest)).take 5 = ['f', 'a', 'l', 's', 'e']) := by
          simp only [List.take_succ_cons, List.cons.injEq]
          intro h
          exact hf h.1
        have c4 : ¬ ((d :: (ds ++ rest)).take 1 = ['"']) := by
          simp only [List.take_succ_cons, List.take_zero, List.cons.injEq, and_true]
          exact hq
        have c5 : ¬ ((d :: (ds ++ rest)).take 1 = ['[']) := by
          simp only [List.take_succ_cons, List.take_zero, List.cons.injEq, and_true]
          exact hlb
        have c6 : ¬ ((d :: (ds ++ rest)).take 1 = ['{']) := by
          simp only [List.take_succ_cons, List.take_zero, List.cons.injEq, and_true]
          exact hob
        have c7 : ((d :: (ds ++ rest)).take 1).any isDigitChar = true := by
          simp only [List.take_succ_cons, List.take_zero, List.any_cons,
            List.any_nil, Bool.or_false]
          exact hdig
        rw [if_neg c1, if_neg c2, if_neg c3, if_neg c4, if_neg c5, if_neg c6,
          if_pos c7, ← List.cons_append, ← hd, parseNat_natRepr n rest hr]
        simp
  | .str s, fuel, rest, hs, _ => by
    cases fuel with
    | zero => exact absurd hs (by have := sizeJson_pos (.str s); omega)
    | succ f =>
      obtain ⟨l⟩ := s
      show parseVal (f + 1) (('"' :: (escJsonList l ++ ['"'])) ++ rest) = _
      rw [show (('"' :: (escJsonList l ++ ['"'])) ++ rest : List Char)
        = '"' :: (escJsonList l ++ '"' :: rest) from by simp]
      rw [parseVal]
      simp only [List.take_succ_cons, List.take_zero, List.drop_succ_cons,
        List.drop_zero, List.cons.injEq, and_true, false_and, Char.reduceEq,
        reduceIte]
      have hF : l.length < ('"' :: (escJsonList l ++ '"' :: rest) : List Char).length := by
        have := escJsonList_length_ge l
        simp only [List.length_cons, List.length_append]
        omega
      rw [parseStr_roundtrip l _ rest hF]
      simp
  | .arr .nil, fuel, rest, hs, _ => by
    cases fuel with
    | zero => exact absurd hs (by have := sizeJson_pos (.arr .nil); omega)
    | succ f =>
      show parseVal (f + 1) (('[' :: ([] ++ [']'])) ++ rest) = _
      rw [show (('[' :: ([] ++ [']'])) ++ rest : List Char) = '[' :: ']' :: rest
        from by simp]
      rw [parseVal]
      simp only [List.take_succ_cons, List.take_zero, List.drop_succ_cons,
        List.drop_zero, List.cons.injEq, and_true, and_self, false_and,
        Char.reduceEq, reduceIte]
  | .arr (.cons h t), fuel, rest, hs, _ => by
    cases fuel with
    | zero => exact absurd hs (by have := sizeJson_pos (.arr (.cons h t)); omega)
    | succ f =>
      show parseVal (f + 1) (('[' :: (stringifyArr (.cons h t) ++ [']'])) ++ rest) = _
      rw [show (('[' :: (stringifyArr (.cons h t) ++ [']'])) ++ rest : List Char)
        = '[' :: (stringifyArr (.cons h t) ++ ']' :: rest) from by simp]
      rw [parseVal]
      obtain ⟨tail, htail⟩ := stringifyArr_cons_eq h t
      have hho := stringifyVal_headOk h
      rcases hX : stringifyVal h with _ | ⟨c, l⟩
      · rw [hX] at hho
        exact hho.elim
      · rw [hX] at hho
        obtain ⟨hc1, hc2, hc3⟩ := hho
        have hhead : stringifyArr (.cons h t) ++ ']' :: rest
            = c :: (l ++ tail ++ ']' :: rest) := by
          rw [htail, hX]
          simp
        rw [hhead]
        simp only [List.take_succ_cons, List.take_zero, List.drop_succ_cons,
          List.drop_zero, List.cons.injEq, and_true, false_and, Char.reduceEq,
          reduceIte]
        rw [if_neg hc1]
        rw [show (c :: (l ++ tail ++ ']' :: rest) : List Char)
          = stringifyArr (.cons h t) ++ ']' :: rest from hhead.symm]
        rw [parseArrTail_stringify h t f rest (by
          simp only [sizeJson, sizeArr] at hs ⊢
          omega)]
        simp
  | .obj .nil, fuel, rest, hs, _ => by
    cases fuel with
    | zero => exact absurd hs (by have := sizeJson_pos (.obj .nil); omega)
    | succ f =>
      show parseVal (f + 1) (('{' :: ([] ++ ['}'])) ++ rest) = _
      rw [show (('{' :: ([] ++ ['}'])) ++ rest : List Char) = '{' :: '}' :: rest
        from by simp]
      rw [parseVal]
      simp only [List.take_succ_cons, List.take_zero, List.drop_succ_cons,
        List.drop_zero, List.cons.injEq, and_true, and_self, false_and,
        Char.reduceEq, reduceIte]
  | .obj (.cons k v t), fuel, rest, hs, _ => by
    cases fuel with
    | zero => exact absurd hs (by have := sizeJson_pos (.obj (.cons k v t)); omega)
    | succ f =>
      show parseVal (f + 1) (('{' :: (stringifyObj (.cons k v t) ++ ['}'])) ++ rest) = _
      rw [show (('{' :: (stringifyObj (.cons k v t) ++ ['}'])) ++ rest : List Char)
        = '{' :: (stringifyObj (.cons k v t) ++ '}' :: rest) from by simp]
      rw [parseVal]
      have hhead : ∃ tl, stringifyObj (.cons k v t) ++ '}' :: rest = '"' :: tl := by
        cases t with
        | nil =>
          exact ⟨escJsonList k.data ++ '"' ::
            (':' :: (stringifyVal v ++ '}' :: rest)),
            by simp [stringifyObj, quoteJson]⟩
        | cons k2 v2 t2 =>
          exact ⟨escJsonList k.data ++ '"' :: (':' :: (stringifyVal v ++
            ',' :: (stringifyObj (.cons k2 v2 t2) ++ '}' :: rest))),
            by simp [stringifyObj, quoteJson]⟩
      obtain ⟨tl, htl⟩ := hhead
      rw [htl]
      simp only [List.take_succ_cons, List.take_zero, List.drop_succ_cons,
        List.drop_zero, List.cons.injEq, and_true, false_and, Char.reduceEq,
        reduceIte]
      rw [show ('"' :: tl : List Char) = stringifyObj (.cons k v t) ++ '}' :: rest
        from htl.symm]
      rw [parseObjTail_stringify k v t f rest (by
        simp only [sizeJson, sizeObj] at hs ⊢
        omega)]
      simp
termination_by j fuel rest _hs _hr => sizeJson j
decreasing_by
  all_goals simp only [sizeJson, sizeArr, sizeObj]
  all_goals omega

theorem parseArrTail_stringify : ∀ (h : Json) (t : JsonArr) (fuel : Nat)
    (rest : List Char), sizeArr (.cons h t) ≤ fuel →
    parseArrTail fuel (stringifyArr (.cons h t) ++ ']' :: rest)
      = some (.cons h t, rest)
  | h, .nil, fuel, rest, hs => by
    cases fuel with
    | zero => exact absurd hs (by simp [sizeArr])
    | succ f =>
      show parseArrTail (f + 1) (stringifyVal h ++ ']' :: rest) = _
      rw [parseArrTail]
      rw [parseVal_stringify h f (']' :: rest) (by
        simp only [sizeArr] at hs
        omega) (by rfl)]
      simp only [Option.some_bind]
      simp only [List.take_succ_cons, List.take_zero, List.drop_succ_cons,
        List.drop_zero, List.cons.injEq, and_true, Char.reduceEq, reduceIte]
  | h, .cons h2 t2, fuel, rest, hs => by
    cases fuel with
    | zero => exact absurd hs (by simp [sizeArr])
    | succ f =>
      show parseArrTail (f + 1)
        ((stringifyVal h ++ ',' :: stringifyArr (.cons h2 t2)) ++ ']' :: rest) = _
      rw [show ((stringifyVal h ++ ',' :: stringifyArr (.cons h2 t2)) ++ ']' :: rest
          : List Char)
        = stringifyVal h ++ ',' :: (stringifyArr (.cons h2 t2) ++ ']' :: rest)
        from by simp]
      rw [parseArrTail]
      rw [parseVal_stringify h f (',' :: (stringifyArr (.cons h2 t2) ++ ']' :: rest))
        (by simp only [sizeArr] at hs; omega) (by rfl)]
      simp only [Option.some_bind]
      simp only [List.take_succ_cons, List.take_zero, List.drop_succ_cons,
        List.drop_zero, List.cons.injEq, and_true, Char.reduceEq, reduceIte]
      rw [parseArrTail_stringify h2 t2 f rest (by
        simp only [sizeArr] at hs ⊢
        omega)]
      simp
termination_by h t fuel _rest _hs => sizeArr (.cons h t)
decreasing_by
  all_goals simp only [sizeJson, sizeArr, sizeObj]
  all_goals omega

theorem parseObjTail_stringify : ∀ (k : String) (v : Json) (t : JsonObj)
    (fuel : Nat) (rest : List Char), sizeObj (.cons k v t) ≤ fuel →
    parseObjTail fuel (stringifyObj (.cons k v t) ++ '}' :: rest)
      = some (.cons k v t, rest)
  | k, v, .nil, fuel, rest, hs => by
    cases fuel with
    | zero => exact absurd hs (by simp [sizeObj])
    | succ f =>
      obtain ⟨kl⟩ := k
      show parseObjTail (f + 1)
        ((('"' :: (escJsonList kl ++ ['"'])) ++ ':' :: stringifyVal v)
          ++ '}' :: rest) = _
      rw [show ((('"' :: (escJsonList kl ++ ['"'])) ++ ':' :: stringifyVal v)
          ++ '}' :: rest : List Char)
        = '"' :: (escJsonList kl ++ '"' :: (':' :: (stringifyVal v ++ '}' :: rest)))
        from by simp]
      rw [parseObjTail]
      simp only [List.take_succ_cons, List.take_zero, List.drop_succ_cons,
        List.drop_zero, List.cons.injEq, and_true, and_self, Char.reduceEq,
        reduceIte]
      have hF : kl.length <
          ('"' :: (escJsonList kl ++ '"' ::
            (':' :: (stringifyVal v ++ '}' :: rest))) : List Char).length := by
        have := escJsonList_length_ge kl
        simp only [List.length_cons, List.length_append]
        omega
      rw [parseStr_roundtrip kl _ (':' :: (stringifyVal v ++ '}' :: rest)) hF]
      simp only [Option.some_bind]
      simp only [List.take_succ_cons, List.take_zero, List.drop_succ_cons,
        List.drop_zero, List.cons.injEq, and_true, and_self, Char.reduceEq,
        reduceIte]
      rw [parseVal_stringify v f ('}' :: rest) (by
        simp only [sizeObj] at hs
        omega) (by rfl)]
      simp only [Option.some_bind]
      simp only [List.take_succ_cons, List.take_zero, List.drop_succ_cons,
        List.drop_zero, List.cons.injEq, and_true, Char.reduceEq, reduceIte]
  | k, v, .cons k2 v2 t2, fuel, rest, hs => by
    cases fuel with
    | zero => exact absurd hs (by simp [sizeObj])
    | succ f =>
      obtain ⟨kl⟩ := k
      show parseObjTail (f + 1)
        ((('"' :: (escJsonList kl ++ ['"'])) ++ ':' :: stringifyVal v
          ++ ',' :: stringifyObj (.cons k2 v2 t2)) ++ '}' :: rest) = _
      rw [show ((('"' :: (escJsonList kl ++ ['"'])) ++ ':' :: stringifyVal v
          ++ ',' :: stringifyObj (.cons k2 v2 t2)) ++ '}' :: rest : List Char)
        = '"' :: (escJsonList kl ++ '"' :: (':' :: (stringifyVal v
            ++ ',' :: (stringifyObj (.cons k2 v2 t2) ++ '}' :: rest))))
        from by simp]
      rw [parseObjTail]
      simp only [List.take_succ_cons, List.take_zero, List.drop_succ_cons,
        List.drop_zero, List.cons.injEq, and_true, and_self, Char.reduceEq,
        reduceIte]
      have hF : kl.length <
          ('"' :: (escJsonList kl ++ '"' :: (':' :: (stringifyVal v
            ++ ',' :: (stringifyObj (.cons k2 v2 t2) ++ '}' :: rest))))
            : List Char).length := by
        have := escJsonList_length_ge kl
        simp only [List.length_cons, List.length_append]
        omega
      rw [parseStr_roundtrip kl _
        (':' :: (stringifyVal v ++ ',' :: (stringifyObj (.cons k2 v2 t2)
          ++ '}' :: rest))) hF]
      simp only [Option.some_bind]
      simp only [List.take_succ_cons, List.take_zero, List.drop_succ_cons,
        List.drop_zero, List.cons.injEq, and_true, and_self, Char.reduceEq,
        reduceIte]
      rw [parseVal_stringify v f
        (',' :: (stringifyObj (.cons k2 v2 t2) ++ '}' :: rest)) (by
          simp only [sizeObj] at hs
          omega) (by rfl)]
      simp only [Option.some_bind]
      simp only [List.take_succ_cons, List.take_zero, List.drop_succ_cons,
        List.drop_zero, List.cons.injEq, and_true, Char.reduceEq, reduceIte]
      rw [parseObjTail_stringify k2 v2 t2 f rest (by
        simp only [sizeObj] at hs ⊢
        omega)]
      simp
termination_by k v t fuel _rest _hs => sizeObj (.cons k v t)
decreasing_by
  all_goals simp only [sizeJson, sizeArr, sizeObj]
  all_goals omega
end

mutual
theorem sizeJson_le_length : ∀ j : Json, sizeJson j ≤ (stringifyVal j).length
  | .null => by simp [sizeJson, stringifyVal]
  | .bool b => by cases b <;> simp [sizeJson, stringifyVal]
  | .num n => by
    simp only [sizeJson, stringifyVal]
    have := List.length_pos.mpr (natRepr_ne_nil n)
    omega
  | .str s => by simp [sizeJson, stringifyVal, quoteJson]
  | .arr xs => by
    have := sizeArr_le_length xs
    simp only [sizeJson, stringifyVal, List.length_cons, List.length_append]
    omega
  | .obj fs => by
    have := sizeObj_le_length fs
    simp only [sizeJson, stringifyVal, List.length_cons, List.length_append]
    omega

theorem sizeArr_le_length : ∀ xs : JsonArr,
    sizeArr xs ≤ (stringifyArr xs).length + 1
  | .nil => by simp [sizeArr]
  | .cons h .nil => by
    have := sizeJson_le_length h
    simp only [sizeArr, sizeArr, stringifyArr]
    omega
  | .cons h (.cons h2 t2) => by
    have hh := sizeJson_le_length h
    have ht := sizeArr_le_length (.cons h2 t2)
    simp only [sizeArr, stringifyArr, List.length_append, List.length_cons] at *
    omega

theorem sizeObj_le_length : ∀ fs : JsonObj,
    sizeObj fs ≤ (stringifyObj fs).length + 1
  | .nil => by simp [sizeObj]
  | .cons k v .nil => by
    have := sizeJson_le_length v
    simp only [sizeObj, sizeObj, stringifyObj, List.length_append,
      List.length_cons]
    omega
  | .cons k v (.cons k2 v2 t2) => by
    have hv := sizeJson_le_length v
    have ht := sizeObj_le_length (.cons k2 v2 t2)
    simp only [sizeObj, stringifyObj, List.length_append, List.length_cons] at *
    omega
end

/-- `JSON.parse (JSON.stringify j) = j`. -/
theorem parseJson_stringify (j : Json) : parseJson ⟨stringifyVal j⟩ = some j := by
  have hsize : sizeJson j ≤ (stringifyVal j).length + 1 := by
    have := sizeJson_le_length j
    omega
  unfold parseJson
  have h1 : (⟨stringifyVal j⟩ : String).data = stringifyVal j := rfl
  rw [h1]
  have h2 := parseVal_stringify j ((stringifyVal j).length + 1) [] hsize (by rfl)
  rw [List.append_nil] at h2
  rw [h2]

/-! ## Round-trip of the base64 layer -/
theorem b64Val_b64Char : ∀ v < 64, b64Val (b64Char v) = some v := by
  decide

theorem b64Char_props : ∀ v : Nat,
    b64Char v ≠ '=' ∧ b64Char v ≠ '-' ∧ b64Char v ≠ '_' := by
  intro v
  by_cases h : v < 64
  · exact (by decide : ∀ v < 64, b64Char v ≠ '=' ∧ b64Char v ≠ '-' ∧
      b64Char v ≠ '_') v h
  · unfold b64Char
    rw [List.getD_eq_default _ _ (by
      have : b64Alphabet.length = 64 := by decide
      omega)]
    refine ⟨by decide, by decide, by decide⟩

theorem b64EncodeU_mem : ∀ (bs : List Nat) (c : Char),
    c ∈ b64EncodeU bs → ∃ v, c = b64Char v
  | [], c, h => by simp [b64EncodeU] at h
  | [b1], c, h => by
    simp only [b64EncodeU, List.mem_cons, List.mem_singleton,
      List.not_mem_nil, or_false] at h
    rcases h with h | h
    · exact ⟨_, h⟩
    · exact ⟨_, h⟩
  | [b1, b2], c, h => by
    simp only [b64EncodeU, List.mem_cons, List.mem_singleton,
      List.not_mem_nil, or_false] at h
    rcases h with h | h | h
    · exact ⟨_, h⟩
    · exact ⟨_, h⟩
    · exact ⟨_, h⟩
  | b1 :: b2 :: b3 :: rest, c, h => by
    simp only [b64EncodeU, List.mem_cons] at h
    rcases h with h | h | h | h | h
    · exact ⟨_, h⟩
    · exact ⟨_, h⟩
    · exact ⟨_, h⟩
    · exact ⟨_, h⟩
    · exact b64EncodeU_mem rest c h

theorem b64EncodeU_no_special (bs : List Nat) (c : Char)
    (h : c ∈ b64EncodeU bs) : c ≠ '=' ∧ c ≠ '-' ∧ c ≠ '_' := by
  obtain ⟨v, rfl⟩ := b64EncodeU_mem bs c h
  exact b64Char_props v

theorem b64DecodeU_encodeU : ∀ bs : List Nat, (∀ b ∈ bs, b < 256) →
    b64DecodeU (b64EncodeU bs) = some bs
  | [], _ => rfl
  | [b1], h => by
    have hb1 : b1 < 256 := h b1 (by simp)
    show b64DecodeU [b64Char (b1 / 4), b64Char (b1 % 4 * 16)] = some [b1]
    rw [b64DecodeU]
    rw [b64Val_b64Char _ (by omega), b64Val_b64Char _ (by omega)]
    simp only [Option.some_bind, Option.map_some', Option.some.injEq,
      List.cons.injEq, and_true]
    omega
  | [b1, b2], h => by
    have hb1 : b1 < 256 := h b1 (by simp)
    have hb2 : b2 < 256 := h b2 (by simp)
    show b64DecodeU [b64Char (b1 / 4), b64Char (b1 % 4 * 16 + b2 / 16),
      b64Char (b2 % 16 * 4)] = some [b1, b2]
    rw [b64DecodeU]
    rw [b64Val_b64Char _ (by omega), b64Val_b64Char _ (by omega),
      b64Val_b64Char _ (by omega)]
    simp only [Option.some_bind, Option.map_some', Option.some.injEq,
      List.cons.injEq, and_true]
    constructor
    · omega
    · omega
  | b1 :: b2 :: b3 :: rest, h => by
    have hb1 : b1 < 256 := h b1 (by simp)
    have hb2 : b2 < 256 := h b2 (by simp)
    have hb3 : b3 < 256 := h b3 (by simp)
    have ih := b64DecodeU_encodeU rest (fun b hb => h b (by simp [hb]))
    cases hrest : b64EncodeU rest with
    | nil =>
      have hre : rest = [] := by
        cases rest with
        | nil => rfl
        | cons x xs =>
          exfalso
          rcases xs with _ | ⟨y, ys⟩
          · simp [b64EncodeU] at hrest
          · rcases ys with _ | ⟨z, zs⟩ <;> simp [b64EncodeU] at hrest
      subst hre
      show b64DecodeU [b64Char (b1 / 4), b64Char (b1 % 4 * 16 + b2 / 16),
        b64Char (b2 % 16 * 4 + b3 / 64), b64Char (b3 % 64)] = _
      rw [b64DecodeU]
      rw [b64Val_b64Char _ (by omega), b64Val_b64Char _ (by omega),
        b64Val_b64Char _ (by omega), b64Val_b64Char _ (by omega)]
      simp only [b64DecodeU, Option.some_bind, Option.map_some',
        Option.some.injEq, List.cons.injEq, and_true]
      refine ⟨by omega, by omega, by omega⟩
    | cons e es =>
      show b64DecodeU (b64Char (b1 / 4) :: b64Char (b1 % 4 * 16 + b2 / 16) ::
        b64Char (b2 % 16 * 4 + b3 / 64) :: b64Char (b3 % 64) :: b64EncodeU rest)
        = _
      rw [hrest, b64DecodeU]
      rw [b64Val_b64Char _ (by omega), b64Val_b64Char _ (by omega),
        b64Val_b64Char _ (by omega), b64Val_b64Char _ (by omega)]
      rw [← hrest, ih]
      simp only [Option.some_bind, Option.map_some', Option.some.injEq,
        List.cons.injEq, and_true]
      refine ⟨by omega, by omega, by omega⟩

theorem stripPad_no_eq (cs : List Char) (h : ∀ c ∈ cs, c ≠ '=') :
    stripPad cs = cs := by
  unfold stripPad
  split_ifs with h4 h2 h1
  · exfalso
    rcases hc : cs.reverse with _ | ⟨c, l⟩
    · rw [hc] at h2
      simp at h2
    · rw [hc] at h2
      have : c ∈ cs := by
        have : c ∈ cs.reverse := by rw [hc]; simp
        simpa using this
      have hne := h c this
      simp only [List.take_succ_cons, List.cons.injEq] at h2
      exact hne h2.1
  · exfalso
    rcases hc : cs.reverse with _ | ⟨c, l⟩
    · rw [hc] at h1
      simp at h1
    · rw [hc] at h1
      have : c ∈ cs := by
        have : c ∈ cs.reverse := by rw [hc]; simp
        simpa using this
      have hne := h c this
      simp only [List.take_succ_cons, List.take_zero, List.cons.injEq,
        and_true] at h1
      exact hne h1
  · rfl
  · rfl

theorem stripPad_pad2 (xs : List Char) (h4 : (xs.length + 2) % 4 = 0) :
    stripPad (xs ++ ['=', '=']) = xs := by
  unfold stripPad
  rw [if_pos (by simp; omega)]
  rw [show (xs ++ ['=', '='] : List Char).reverse = '=' :: '=' :: xs.reverse
    from by simp]
  rw [if_pos (by simp)]
  simp

theorem stripPad_pad1 (xs : List Char) (hx : ∀ c ∈ xs, c ≠ '=')
    (h4 : (xs.length + 1) % 4 = 0) : stripPad (xs ++ ['=']) = xs := by
  unfold stripPad
  rw [if_pos (by simp; omega)]
  rw [show (xs ++ ['='] : List Char).reverse = '=' :: xs.reverse from by simp]
  have hne2 : ¬ (('=' :: xs.reverse : List Char).take 2 = ['=', '=']) := by
    rcases hc : xs.reverse with _ | ⟨c, l⟩
    · simp
    · have : c ∈ xs := by
        have : c ∈ xs.reverse := by rw [hc]; simp
        simpa using this
      simp only [List.take_succ_cons, List.take_zero, List.cons.injEq,
        and_true]
      intro hcc
      exact hx c this hcc.2
  rw [if_neg hne2]
  rw [if_pos (by simp)]
  simp

theorem b64EncodeU_pad_length : ∀ bs : List Nat,
    ((b64EncodeU bs).length + (b64PadFor bs.length).length) % 4 = 0
  | [] => by simp [b64EncodeU, b64PadFor]
  | [b1] => by simp [b64EncodeU, b64PadFor]
  | [b1, b2] => by simp [b64EncodeU, b64PadFor]
  | b1 :: b2 :: b3 :: rest => by
    have ih := b64EncodeU_pad_length rest
    have hpad : b64PadFor (b1 :: b2 :: b3 :: rest).length
        = b64PadFor rest.length := by
      unfold b64PadFor
      have h1 : (b1 :: b2 :: b3 :: rest).length % 3 = rest.length % 3 := by
        simp only [List.length_cons]
        omega
      rw [h1]
    rw [hpad]
    simp only [b64EncodeU, List.length_cons] at ih ⊢
    omega

/-- `atob (btoa s) = s` on `btoa`'s domain (all code points ≤ 255). -/
theorem atob_btoa (s : String) (h : latin1 s = true) :
    ∃ e, btoa s = some e ∧ atob e = some s := by
  have hall : s.data.all (fun c => c.toNat < 256) = true := h
  refine ⟨⟨b64EncodeU (s.data.map Char.toNat) ++
    b64PadFor (s.data.map Char.toNat).length⟩, ?_, ?_⟩
  · unfold btoa
    rw [if_pos hall]
  · unfold atob
    have hbytes : ∀ b ∈ s.data.map Char.toNat, b < 256 := by
      intro b hb
      rw [List.mem_map] at hb
      obtain ⟨c, hc, rfl⟩ := hb
      have := List.all_eq_true.mp hall c hc
      simpa using this
    have hnoeq : ∀ c ∈ b64EncodeU (s.data.map Char.toNat), c ≠ '=' :=
      fun c hc => (b64EncodeU_no_special _ c hc).1
    have hstrip : stripPad (b64EncodeU (s.data.map Char.toNat) ++
        b64PadFor (s.data.map Char.toNat).length)
        = b64EncodeU (s.data.map Char.toNat) := by
      have hlen := b64EncodeU_pad_length (s.data.map Char.toNat)
      rcases h3 : (s.data.map Char.toNat).length % 3 with _ | _ | _ | k
      · have hpadnil : b64PadFor (s.data.map Char.toNat).length = [] := by
          unfold b64PadFor
          rw [h3]
          simp
        rw [hpadnil, List.append_nil]
        exact stripPad_no_eq _ hnoeq
      · have hpad2 : b64PadFor (s.data.map Char.toNat).length = ['=', '='] := by
          unfold b64PadFor
          rw [h3]
          simp
        rw [hpad2]
        apply stripPad_pad2
        rw [hpad2] at hlen
        simpa using hlen
      · have hpad1 : b64PadFor (s.data.map Char.toNat).length = ['='] := by
          unfold b64PadFor
          rw [h3]
          simp
        rw [hpad1]
        apply stripPad_pad1 _ hnoeq
        rw [hpad1] at hlen
        simpa using hlen
      · exfalso
        omega
    have hdata : (⟨b64EncodeU (s.data.map Char.toNat) ++
        b64PadFor (s.data.map Char.toNat).length⟩ : String).data
        = b64EncodeU (s.data.map Char.toNat) ++
          b64PadFor (s.data.map Char.toNat).length := rfl
    rw [hdata, hstrip, b64DecodeU_encodeU _ hbytes]
    simp only [List.map_map]
    have hmap : ∀ c ∈ s.data, (Char.ofNat ∘ Char.toNat) c = id c := by
      intro c _
      simp [Char.ofNat_toNat]
    rw [List.map_congr_left hmap, List.map_id]

/-! ## Latin-1 is preserved by serialization -/
theorem isDigitChar_toNat_lt (c : Char) (h : isDigitChar c = true) :
    c.toNat < 256 := by
  unfold isDigitChar at h
  rw [Bool.and_eq_true, decide_eq_true_eq, decide_eq_true_eq] at h
  have h1 : c.val ≤ ('9' : Char).val := Char.le_def.mp h.2
  have h2 : c.val.toNat ≤ ('9' : Char).val.toNat := UInt32.le_def.mp h1
  have h3 : ('9' : Char).val.toNat = 57 := by decide
  simp only [Char.toNat]
  omega

theorem hexDigit_toNat_lt : ∀ v < 16, (hexDigit v).toNat < 256 := by
  decide

theorem escJsonChar_latin1 (c : Char) (h : c.toNat < 256) :
    ∀ x ∈ escJsonChar c, x.toNat < 256 := by
  unfold escJsonChar
  split_ifs with h1 h2 h3 h4 h5 h6 h7 h8
  · decide
  · decide
  · decide
  · decide
  · decide
  · decide
  · decide
  · intro x hx
    simp only [List.mem_cons, List.not_mem_nil, or_false] at hx
    rcases hx with rfl | rfl | rfl | rfl | rfl | rfl
    · decide
    · decide
    · decide
    · decide
    · exact hexDigit_toNat_lt _ (by omega)
    · exact hexDigit_toNat_lt _ (by omega)
  · intro x hx
    simp only [List.mem_singleton] at hx
    subst hx
    exact h

theorem escJsonList_latin1 (l : List Char) (h : ∀ c ∈ l, c.toNat < 256) :
    ∀ x ∈ escJsonList l, x.toNat < 256 := by
  induction l with
  | nil => simp [escJsonList]
  | cons c cs ih =>
    intro x hx
    rw [escJsonList, List.mem_append] at hx
    rcases hx with hx | hx
    · exact escJsonChar_latin1 c (h c (by simp)) x hx
    · exact ih (fun d hd => h d (by simp [hd])) x hx

theorem quoteJson_latin1 (s : String) (h : latin1 s = true) :
    ∀ x ∈ quoteJson s, x.toNat < 256 := by
  intro x hx
  unfold quoteJson at hx
  simp only [List.mem_cons, List.mem_append, List.mem_singleton,
    List.not_mem_nil, or_false] at hx
  rcases hx with rfl | hx | rfl
  · decide
  · have hall : ∀ c ∈ s.data, c.toNat < 256 := by
      intro c hc
      have := List.all_eq_true.mp h c hc
      simpa using this
    exact escJsonList_latin1 s.data hall x hx
  · decide

theorem natRepr_latin1 (n : Nat) : ∀ x ∈ (natRepr n).data, x.toNat < 256 :=
  fun x hx => isDigitChar_toNat_lt x (natRepr_all_digit n x hx)

mutual
theorem stringifyVal_latin1 : ∀ j : Json, jsonLatin1 j = true →
    ∀ c ∈ stringifyVal j, c.toNat < 256
  | .null, _ => by decide
  | .bool b, _ => by cases b <;> decide
  | .num n, _ => natRepr_latin1 n
  | .str s, h => quoteJson_latin1 s h
  | .arr xs, h => by
    intro c hc
    simp only [stringifyVal, List.mem_cons, List.mem_append,
      List.mem_singleton, List.not_mem_nil, or_false] at hc
    rcases hc with rfl | hc | rfl
    · decide
    · exact stringifyArr_latin1 xs h c hc
    · decide
  | .obj fs, h => by
    intro c hc
    simp only [stringifyVal, List.mem_cons, List.mem_append,
      List.mem_singleton, List.not_mem_nil, or_false] at hc
    rcases hc with rfl | hc | rfl
    · decide
    · exact stringifyObj_latin1 fs h c hc
    · decide

theorem stringifyArr_latin1 : ∀ xs : JsonArr, jsonArrLatin1 xs = true →
    ∀ c ∈ stringifyArr xs, c.toNat < 256
  | .nil, _ => by simp [stringifyArr]
  | .cons h .nil, hl => by
    have hh : jsonLatin1 h = true := by
      rw [jsonArrLatin1, Bool.and_eq_true] at hl
      exact hl.1
    intro c hc
    rw [show stringifyArr (.cons h .nil) = stringifyVal h from rfl] at hc
    exact stringifyVal_latin1 h hh c hc
  | .cons h (.cons h2 t2), hl => by
    rw [jsonArrLatin1, Bool.and_eq_true] at hl
    intro c hc
    rw [show stringifyArr (.cons h (.cons h2 t2))
      = stringifyVal h ++ ',' :: stringifyArr (.cons h2 t2) from rfl] at hc
    simp only [List.mem_append, List.mem_cons] at hc
    rcases hc with hc | rfl | hc
    · exact stringifyVal_latin1 h hl.1 c hc
    · decide
    · exact stringifyArr_latin1 (.cons h2 t2) hl.2 c hc

theorem stringifyObj_latin1 : ∀ fs : JsonObj, jsonObjLatin1 fs = true →
    ∀ c ∈ stringifyObj fs, c.toNat < 256
  | .nil, _ => by simp [stringifyObj]
  | .cons k v .nil, hl => by
    rw [jsonObjLatin1, Bool.and_eq_true, Bool.and_eq_true] at hl
    intro c hc
    rw [show stringifyObj (.cons k v .nil)
      = quoteJson k ++ ':' :: stringifyVal v from rfl] at hc
    simp only [List.mem_append, List.mem_cons] at hc
    rcases hc with hc | rfl | hc
    · exact quoteJson_latin1 k hl.1.1 c hc
    · decide
    · exact stringifyVal_latin1 v hl.1.2 c hc
  | .cons k v (.cons k2 v2 t2), hl => by
    rw [jsonObjLatin1, Bool.and_eq_true, Bool.and_eq_true] at hl
    intro c hc
    rw [show stringifyObj (.cons k v (.cons k2 v2 t2))
      = quoteJson k ++ ':' :: stringifyVal v ++
        ',' :: stringifyObj (.cons k2 v2 t2) from rfl] at hc
    simp only [List.mem_append, List.mem_cons] at hc
    rcases hc with (hc | rfl | hc) | rfl | hc
    · exact quoteJson_latin1 k hl.1.1 c hc
    · decide
    · exact stringifyVal_latin1 v hl.1.2 c hc
    · decide
    · exact stringifyObj_latin1 (.cons k2 v2 t2) hl.2 c hc
end

theorem taskToJson_latin1 (t : Task) (h : taskLatin1 t = true) :
    jsonLatin1 (taskToJson t) = true := by
  unfold taskLatin1 at h
  simp only [Bool.and_eq_true] at h
  obtain ⟨⟨⟨⟨h1, h2⟩, h3⟩, h4⟩, h5⟩ := h
  show (latin1 "id" && true &&
    (latin1 "task" && latin1 t.task &&
      (latin1 "project" && latin1 t.project &&
        (latin1 "organization" && latin1 t.organization &&
          (latin1 "dueDate" && latin1 t.dueDate &&
            (latin1 "completed" && true &&
              (latin1 "createdAt" && latin1 t.createdAt && true))))))) = true
  rw [h1, h2, h3, h4, h5]
  decide

theorem tasksToJsonArr_latin1 (ts : List Task) (h : ts.all taskLatin1 = true) :
    jsonArrLatin1 (tasksToJsonArr ts) = true := by
  induction ts with
  | nil => rfl
  | cons t rest ih =>
    rw [List.all_cons, Bool.and_eq_true] at h
    show (jsonLatin1 (taskToJson t) && jsonArrLatin1 (tasksToJsonArr rest)) = true
    rw [taskToJson_latin1 t h.1, ih h.2]
    rfl

theorem stringsToJsonArr_latin1 (ss : List String) (h : ss.all latin1 = true) :
    jsonArrLatin1 (stringsToJsonArr ss) = true := by
  induction ss with
  | nil => rfl
  | cons s rest ih =>
    rw [List.all_cons, Bool.and_eq_true] at h
    show (latin1 s && jsonArrLatin1 (stringsToJsonArr rest)) = true
    rw [h.1, ih h.2]
    rfl

theorem stateToJson_latin1 (s : AppState) (h : stateLatin1 s = true) :
    jsonLatin1 (stateToJson s) = true := by
  unfold stateLatin1 at h
  simp only [Bool.and_eq_true] at h
  obtain ⟨⟨⟨h1, h2⟩, h3⟩, h4⟩ := h
  show (latin1 "tasks" && jsonArrLatin1 (tasksToJsonArr s.tasks) &&
    (latin1 "projects" && jsonArrLatin1 (stringsToJsonArr s.projects) &&
      (latin1 "organizations" && jsonArrLatin1 (stringsToJsonArr s.organizations) &&
        (latin1 "currentSortMode" && latin1 s.currentSortMode && true)))) = true
  rw [tasksToJsonArr_latin1 _ h1, stringsToJsonArr_latin1 _ h2,
    stringsToJsonArr_latin1 _ h3, h4]
  decide

/-! ## The decode side recovers the state -/
theorem jsonToTask_taskToJson (t : Task) : jsonToTask (taskToJson t) = some t :=
  rfl

theorem jsonArrToTasks_tasksToJsonArr (ts : List Task) :
    jsonArrToTasks (tasksToJsonArr ts) = some ts := by
  induction ts with
  | nil => rfl
  | cons t rest ih =>
    show jsonArrToTasks (.cons (taskToJson t) (tasksToJsonArr rest)) = _
    rw [jsonArrToTasks, jsonToTask_taskToJson, ih]

theorem jsonArrToStrings_stringsToJsonArr (ss : List String) :
    jsonArrToStrings (stringsToJsonArr ss) = some ss := by
  induction ss with
  | nil => rfl
  | cons s rest ih =>
    show jsonArrToStrings (.cons (.str s) (stringsToJsonArr rest)) = _
    rw [jsonArrToStrings, ih]

theorem decodeState_stateToJson (s : AppState) (hm : s.currentSortMode ≠ "") :
    decodeState (stateToJson s) = some s := by
  have hne : (s.currentSortMode == "") = false := beq_eq_false_iff_ne.mpr hm
  simp +decide only [decodeState, stateToJson, getField, jsOrElse, truthy, hne,
    Bool.not_false, reduceIte]
  rw [jsonArrToTasks_tasksToJsonArr, jsonArrToStrings_stringsToJsonArr,
    jsonArrToStrings_stringsToJsonArr]

/-! ## Auxiliary facts for the persistence and share-link claims -/
theorem stringifyVal_ne_nil : ∀ j : Json, stringifyVal j ≠ []
  | .null => by simp [stringifyVal]
  | .bool b => by cases b <;> simp [stringifyVal]
  | .num n => natRepr_ne_nil n
  | .str s => by simp [stringifyVal, quoteJson]
  | .arr xs => by simp [stringifyVal]
  | .obj fs => by simp [stringifyVal]

theorem stringify_string_ne_empty (j : Json) :
    (⟨stringifyVal j⟩ : String) ≠ "" := by
  intro h
  exact stringifyVal_ne_nil j (congrArg String.data h)

theorem b64EncodeU_ne_nil : ∀ bs : List Nat, bs ≠ [] → b64EncodeU bs ≠ []
  | [], h => absurd rfl h
  | [b1], _ => by simp [b64EncodeU]
  | [b1, b2], _ => by simp [b64EncodeU]
  | b1 :: b2 :: b3 :: rest, _ => by simp [b64EncodeU]

theorem btoa_ne_empty (s e : String) (hb : btoa s = some e) (hs : s ≠ "") :
    e ≠ "" := by
  unfold btoa at hb
  split_ifs at hb with hall
  · injection hb with hb'
    subst hb'
    intro he
    have hdata : b64EncodeU (s.data.map Char.toNat) ++
        b64PadFor (s.data.map Char.toNat).length = [] := congrArg String.data he
    have hnil := List.append_eq_nil.mp hdata
    have hmap : s.data.map Char.toNat ≠ [] := by
      intro hm
      rw [List.map_eq_nil_iff] at hm
      exact hs (String.ext hm)
    exact b64EncodeU_ne_nil _ hmap hnil.1

theorem btoa_parts (s b : String) (hb : btoa s = some b) :
    s.data.all (fun c => c.toNat < 256) = true ∧
    b.data = b64EncodeU (s.data.map Char.toNat) ++
      b64PadFor (s.data.map Char.toNat).length := by
  unfold btoa at hb
  split_ifs at hb with hall
  · refine ⟨hall, ?_⟩
    injection hb with hb'
    rw [← hb']

theorem atob_encodeU (s : String)
    (hall : s.data.all (fun c => c.toNat < 256) = true) :
    atob ⟨b64EncodeU (s.data.map Char.toNat)⟩ = some s := by
  unfold atob
  have hbytes : ∀ b ∈ s.data.map Char.toNat, b < 256 := by
    intro b hb
    rw [List.mem_map] at hb
    obtain ⟨c, hc, rfl⟩ := hb
    have := List.all_eq_true.mp hall c hc
    simpa using this
  have hnoeq : ∀ c ∈ b64EncodeU (s.data.map Char.toNat), c ≠ '=' :=
    fun c hc => (b64EncodeU_no_special _ c hc).1
  rw [show (⟨b64EncodeU (s.data.map Char.toNat)⟩ : String).data
    = b64EncodeU (s.data.map Char.toNat) from rfl]
  rw [stripPad_no_eq _ hnoeq, b64DecodeU_encodeU _ hbytes]
  simp only [List.map_map]
  have hmap : ∀ c ∈ s.data, (Char.ofNat ∘ Char.toNat) c = id c := by
    intro c _
    simp [Char.ofNat_toNat]
  rw [List.map_congr_left hmap, List.map_id]

theorem saveData_creation_eq (s : AppState) (env : StorageEnv)
    (hu : env.useCreation = true) (hset : env.setFails = false)
    (e : String) (hb : btoa ⟨stringifyVal (stateToJson s)⟩ = some e) :
    saveData s env = Except.ok { env with creationStore := some e } := by
  simp only [saveData, hu, hb, hset, Bool.false_eq_true, reduceIte]

theorem saveData_local_eq (s : AppState) (env : StorageEnv)
    (hu : env.useCreation = false) (hset : env.setFails = false) :
    saveData s env
      = Except.ok { env with localStore := some ⟨stringifyVal (stateToJson s)⟩ } := by
  simp only [saveData, hu, hset, Bool.false_eq_true, reduceIte]

theorem loadData_creation_ok (env : StorageEnv) (current : AppState)
    (hu : env.useCreation = true) (hg : env.getFails = false)
    (stored : String) (hst : env.creationStore = some stored) (hne : stored ≠ "")
    (decoded : String) (ha : atob stored = some decoded)
    (data : Json) (hp : parseJson decoded = some data) (ht : truthy data = true)
    (s' : AppState) (hd : decodeState data = some s') :
    loadData env current = Except.ok s' := by
  simp only [loadData, hu, hg, Bool.false_eq_true, reduceIte, hst, if_neg hne, ha, hp, ht, hd]

theorem loadData_local_ok (env : StorageEnv) (current : AppState)
    (hu : env.useCreation = false)
    (stored : String) (hst : env.localStore = some stored) (hne : stored ≠ "")
    (data : Json) (hp : parseJson stored = some data) (ht : truthy data = true)
    (s' : AppState) (hd : decodeState data = some s') :
    loadData env current = Except.ok s' := by
  simp only [loadData, hu, Bool.false_eq_true, reduceIte, hst, if_neg hne, hp, ht, hd]

/-- C1 counterexample: a valid state containing a task title with a
code point above U+00FF.  `btoa` throws, `saveData` catches the error
and stores nothing (the result is `ok` with the environment unchanged),
and a subsequent load returns the prior (empty) state, which differs
from the saved one — `load(save(S)) ≠ S`. -/
theorem claim_C1_counterexample :
    saveData cexC1State cexC1Env = Except.ok cexC1Env ∧
    loadData cexC1Env emptyState = Except.ok emptyState ∧
    emptyState ≠ cexC1State :=
  ⟨rfl, rfl, by decide⟩

/-- C1 (amended): for a state whose sort mode is non-empty and — when
the `creationStorage` branch is in use — whose strings are all Latin-1,
and whose storage operations succeed, saving and then loading returns
exactly the saved state, on either storage branch. -/
theorem claim_C1_amended (s : AppState) (env : StorageEnv)
    (hmode : s.currentSortMode ≠ "")
    (hlat : env.useCreation = false ∨ stateLatin1 s = true)
    (hset : env.setFails = false) (hget : env.getFails = false) :
    ∃ env', saveData s env = Except.ok env' ∧
      ∀ current, loadData env' current = Except.ok s := by
  have hne : (⟨stringifyVal (stateToJson s)⟩ : String) ≠ "" :=
    stringify_string_ne_empty (stateToJson s)
  have hparse : parseJson ⟨stringifyVal (stateToJson s)⟩ = some (stateToJson s) :=
    parseJson_stringify (stateToJson s)
  have htr : truthy (stateToJson s) = true := rfl
  have hdec : decodeState (stateToJson s) = some s :=
    decodeState_stateToJson s hmode
  cases hu : env.useCreation with
  | false =>
    refine ⟨{ env with localStore := some ⟨stringifyVal (stateToJson s)⟩ },
      saveData_local_eq s env hu hset, ?_⟩
    intro current
    exact loadData_local_ok
      { env with localStore := some ⟨stringifyVal (stateToJson s)⟩ }
      current hu _ rfl hne _ hparse htr s hdec
  | true =>
    have hl : stateLatin1 s = true := by
      rcases hlat with h | h
      · rw [hu] at h
        exact Bool.noConfusion h
      · exact h
    have hlj : latin1 ⟨stringifyVal (stateToJson s)⟩ = true := by
      rw [latin1, List.all_eq_true]
      intro c hc
      have := stringifyVal_latin1 (stateToJson s) (stateToJson_latin1 s hl) c hc
      simpa using this
    obtain ⟨e, hbe, hae⟩ := atob_btoa ⟨stringifyVal (stateToJson s)⟩ hlj
    have hene : e ≠ "" := btoa_ne_empty _ e hbe hne
    refine ⟨{ env with creationStore := some e },
      saveData_creation_eq s env hu hset e hbe, ?_⟩
    intro current
    exact loadData_creation_ok { env with creationStore := some e }
      current hu hget e rfl hene _ hae _ hparse htr s hdec

/-- Witness for `claim_C1_amended` at a concrete state and a concrete
`creationStorage` environment. -/
theorem claim_C1_amended_witness :
    ∃ env', saveData wState ⟨true, false, false, none, none⟩ = Except.ok env' ∧
      ∀ current, loadData env' current = Except.ok wState :=
  claim_C1_amended wState ⟨true, false, false, none, none⟩ (by decide)
    (Or.inr (by decide)) rfl rfl

/-- C6 counterexample: on the `localStorage` fallback branch
`JSON.parse` is not inside the `try`, so loading an unparsable stored
blob throws (`Except.error`), and an unguarded `setItem` failure during
save also throws — persistence failures do crash the caller on this
branch. -/
theorem claim_C6_counterexample :
    loadData cexC6Env emptyState = Except.error "SyntaxError in JSON.parse" ∧
    saveData emptyState ⟨false, false, true, none, none⟩
      = Except.error "localStorage.setItem failed" :=
  ⟨rfl, rfl⟩

/-- C6 (amended): on the `creationStorage` branch every persistence
failure is caught: save never throws, and when encoding or the storage
write fails nothing is written (the environment is unchanged); load
never throws, and when the stored blob fails to decode the in-memory
state is left unchanged.  On the `localStorage` fallback branch a
storage failure during save throws to the caller. -/
theorem claim_C6_amended :
    (∀ (s : AppState) (env : StorageEnv), env.useCreation = true →
      ∃ env', saveData s env = Except.ok env') ∧
    (∀ (s : AppState) (env : StorageEnv), env.useCreation = true →
      (env.setFails = true ∨ btoa ⟨stringifyVal (stateToJson s)⟩ = none) →
      saveData s env = Except.ok env) ∧
    (∀ (env : StorageEnv) (current : AppState), env.useCreation = true →
      ∃ s', loadData env current = Except.ok s') ∧
    (∀ (env : StorageEnv) (current : AppState) (stored : String),
      env.useCreation = true → env.getFails = false →
      env.creationStore = some stored → stored ≠ "" → atob stored = none →
      loadData env current = Except.ok current) ∧
    (∀ (s : AppState) (env : StorageEnv), env.useCreation = false →
      env.setFails = true →
      saveData s env = Except.error "localStorage.setItem failed") := by
  refine ⟨?_, ?_, ?_, ?_, ?_⟩
  · intro s env hu
    cases hb : btoa ⟨stringifyVal (stateToJson s)⟩ with
    | none =>
      refine ⟨env, ?_⟩
      simp only [saveData, hu, Bool.false_eq_true, reduceIte, hb]
    | some e =>
      cases hsf : env.setFails with
      | true =>
        refine ⟨env, ?_⟩
        simp only [saveData, hu, Bool.false_eq_true, reduceIte, hb, hsf]
      | false =>
        refine ⟨{ env with creationStore := some e }, ?_⟩
        simp only [saveData, hu, Bool.false_eq_true, reduceIte, hb, hsf]
  · intro s env hu hfail
    rcases hfail with hsf | hb
    · cases hb : btoa ⟨stringifyVal (stateToJson s)⟩ with
      | none => simp only [saveData, hu, Bool.false_eq_true, reduceIte, hb]
      | some e => simp only [saveData, hu, Bool.false_eq_true, reduceIte, hb, hsf]
    · simp only [saveData, hu, Bool.false_eq_true, reduceIte, hb]
  · intro env current hu
    cases hg : env.getFails with
    | true => exact ⟨current, by simp only [loadData, hu, hg, Bool.false_eq_true, reduceIte]⟩
    | false =>
      cases hst : env.creationStore with
      | none => exact ⟨current, by simp only [loadData, hu, hg, Bool.false_eq_true, reduceIte, hst]⟩
      | some stored =>
        by_cases hse : stored = ""
        · exact ⟨current, by simp only [loadData, hu, hg, Bool.false_eq_true, reduceIte, hst,
            if_pos hse]⟩
        · cases ha : atob stored with
          | none =>
            exact ⟨current, by simp only [loadData, hu, hg, Bool.false_eq_true, reduceIte, hst,
              if_neg hse, ha]⟩
          | some decoded =>
            cases hp : parseJson decoded with
            | none =>
              exact ⟨current, by simp only [loadData, hu, hg, Bool.false_eq_true, reduceIte, hst,
                if_neg hse, ha, hp]⟩
            | some data =>
              cases ht : truthy data with
              | false =>
                exact ⟨current, by simp only [loadData, hu, hg, Bool.false_eq_true, reduceIte, hst,
                  if_neg hse, ha, hp, ht]⟩
              | true =>
                cases hd : decodeState data with
                | none =>
                  exact ⟨current, by simp only [loadData, hu, hg, Bool.false_eq_true, reduceIte,
                    hst, if_neg hse, ha, hp, ht, hd]⟩
                | some s' =>
                  exact ⟨s', by simp only [loadData, hu, hg, Bool.false_eq_true, reduceIte, hst,
                    if_neg hse, ha, hp, ht, hd]⟩
  · intro env current stored hu hg hst hne ha
    simp only [loadData, hu, hg, Bool.false_eq_true, reduceIte, hst, if_neg hne, ha]
  · intro s env hu hsf
    simp only [saveData, hu, Bool.false_eq_true, reduceIte, hsf]

/-- Witness for `claim_C6_amended` at concrete environments: a save
with a failing write, a load of an undecodable blob, and the throwing
fallback save. -/
theorem claim_C6_amended_witness :
    (∃ env', saveData emptyState ⟨true, true, true, none, none⟩
      = Except.ok env') ∧
    saveData emptyState ⟨true, false, true, none, none⟩
      = Except.ok ⟨true, false, true, none, none⟩ ∧
    (∃ s', loadData ⟨true, false, false, some "!!", none⟩ emptyState
      = Except.ok s') ∧
    loadData ⟨true, false, false, some "!!", none⟩ emptyState
      = Except.ok emptyState ∧
    saveData emptyState ⟨false, false, true, none, none⟩
      = Except.error "localStorage.setItem failed" :=
  ⟨claim_C6_amended.1 emptyState ⟨true, true, true, none, none⟩ rfl,
   claim_C6_amended.2.1 emptyState ⟨true, false, true, none, none⟩ rfl
     (Or.inl rfl),
   claim_C6_amended.2.2.1 ⟨true, false, false, some "!!", none⟩ emptyState rfl,
   claim_C6_amended.2.2.2.1 ⟨true, false, false, some "!!", none⟩ emptyState
     "!!" rfl rfl rfl (by decide) rfl,
   claim_C6_amended.2.2.2.2 emptyState ⟨false, false, true, none, none⟩ rfl rfl⟩

/-! ## Claim C7: empty-draft rejection -/
/-- C7: a draft with empty task text is rejected: the state is
unchanged and nothing is persisted (`confirmTask` returns before its
`saveData()` call, so the storage environment is untouched). -/
theorem claim_C7 (draft : TaskDraft) (now : Nat) (nowIso : String)
    (s : AppState) (env : StorageEnv) (h : draft.task = "") :
    confirmTask draft now nowIso s = s ∧
    confirmTaskFull draft now nowIso s env = (s, Except.ok env) := by
  constructor
  · unfold confirmTask
    rw [if_pos h]
  · unfold confirmTaskFull
    rw [if_pos h]

/-- Witness for `claim_C7` at a concrete draft carrying a project, an
organization and a due date next to its empty task text. -/
theorem claim_C7_witness :
    confirmTask ⟨"", "WebApp", "Org", "2099-01-01"⟩ 5 "iso" emptyState
      = emptyState ∧
    confirmTaskFull ⟨"", "WebApp", "Org", "2099-01-01"⟩ 5 "iso" emptyState
      ⟨true, false, false, none, none⟩
      = (emptyState, Except.ok ⟨true, false, false, none, none⟩) :=
  claim_C7 ⟨"", "WebApp", "Org", "2099-01-01"⟩ 5 "iso" emptyState
    ⟨true, false, false, none, none⟩ rfl

/-! ## Claim C9: the share-link encoding round-trip -/
theorem b64UrlSubst_append (l1 l2 : List Char) :
    b64UrlSubst (l1 ++ l2) = b64UrlSubst l1 ++ b64UrlSubst l2 := by
  induction l1 with
  | nil => rfl
  | cons c r ih =>
    rw [List.cons_append, b64UrlSubst, b64UrlSubst, ih]
    split_ifs <;> rfl

theorem b64UrlSubst_no_special (l : List Char) :
    ∀ c ∈ b64UrlSubst l, c ≠ '+' ∧ c ≠ '/' ∧ c ≠ '=' := by
  induction l with
  | nil => simp [b64UrlSubst]
  | cons x r ih =>
    rw [b64UrlSubst]
    split_ifs with h1 h2 h3
    · intro c hc
      rcases List.mem_cons.mp hc with rfl | hc
      · exact ⟨by decide, by decide, by decide⟩
      · exact ih c hc
    · intro c hc
      rcases List.mem_cons.mp hc with rfl | hc
      · exact ⟨by decide, by decide, by decide⟩
      · exact ih c hc
    · exact ih
    · intro c hc
      rcases List.mem_cons.mp hc with rfl | hc
      · exact ⟨h1, h2, h3⟩
      · exact ih c hc

theorem b64UrlSubst_pad (n : Nat) : b64UrlSubst (b64PadFor n) = [] := by
  unfold b64PadFor
  split_ifs <;> rfl

theorem b64UrlUnsubst_subst (l : List Char)
    (h : ∀ c ∈ l, c ≠ '=' ∧ c ≠ '-' ∧ c ≠ '_') :
    b64UrlUnsubst (b64UrlSubst l) = l := by
  induction l with
  | nil => rfl
  | cons c r ih =>
    have hc := h c (List.mem_cons_self c r)
    have hr := ih (fun x hx => h x (List.mem_cons_of_mem c hx))
    rw [b64UrlSubst]
    split_ifs with h1 h2 h3
    · subst h1
      rw [b64UrlUnsubst, hr]
      simp only [Char.reduceEq, Bool.false_eq_true, reduceIte]
    · subst h2
      rw [b64UrlUnsubst, hr]
      simp only [Char.reduceEq, Bool.false_eq_true, reduceIte]
    · exact absurd h3 hc.1
    · rw [b64UrlUnsubst, hr, if_neg hc.2.1, if_neg hc.2.2]

/-- C9: decoding a generated share link recovers the form data exactly,
and the generated link value contains none of the URL-unsafe characters
`+`, `/`, `=`. -/
theorem claim_C9 (d : FormData) (e : String) (h : updateShareURL d = some e) :
    parseShareParam e = some d ∧
    ∀ c ∈ e.data, c ≠ '+' ∧ c ≠ '/' ∧ c ≠ '=' := by
  unfold updateShareURL at h
  split_ifs at h with hfd
  · cases hb : btoa ⟨stringifyVal (formToJson d)⟩ with
    | none =>
      rw [hb] at h
      exact Option.noConfusion h
    | some b =>
      rw [hb] at h
      injection h with h'
      subst h'
      obtain ⟨hall, hbd⟩ := btoa_parts _ b hb
      have hsub : b64UrlSubst b.data
          = b64UrlSubst (b64EncodeU
            ((⟨stringifyVal (formToJson d)⟩ : String).data.map Char.toNat)) := by
        rw [hbd, b64UrlSubst_append, b64UrlSubst_pad, List.append_nil]
      have hunsub : b64UrlUnsubst (b64UrlSubst b.data)
          = b64EncodeU
            ((⟨stringifyVal (formToJson d)⟩ : String).data.map Char.toNat) := by
        rw [hsub]
        exact b64UrlUnsubst_subst _ (fun c hc => b64EncodeU_no_special _ c hc)
      constructor
      · have hse : atob ⟨b64UrlUnsubst
            ((⟨b64UrlSubst b.data⟩ : String).data)⟩
            = some ⟨stringifyVal (formToJson d)⟩ := by
          rw [show (⟨b64UrlSubst b.data⟩ : String).data = b64UrlSubst b.data
            from rfl, hunsub]
          exact atob_encodeU _ hall
        simp only [parseShareParam, hse, parseJson_stringify]
        rfl
      · intro c hc
        exact b64UrlSubst_no_special b.data c hc

/-- Witness for `claim_C9` at a concrete form whose generated link is
the concrete base64url value below. -/
theorem claim_C9_witness :
    parseShareParam "eyJ0aXRsZSI6Ik15IFFSIiwidXJsIjoiaHR0cHM6Ly9leGFtcGxlLmNvbSIsImRlc2NyaXB0aW9uIjoiIiwiaWNvblVybCI6IiIsInRoZW1lQ29sb3IiOiIjRkU1MDAwIn0"
      = some wForm ∧
    ∀ c ∈ ("eyJ0aXRsZSI6Ik15IFFSIiwidXJsIjoiaHR0cHM6Ly9leGFtcGxlLmNvbSIsImRlc2NyaXB0aW9uIjoiIiwiaWNvblVybCI6IiIsInRoZW1lQ29sb3IiOiIjRkU1MDAwIn0" : String).data,
      c ≠ '+' ∧ c ≠ '/' ∧ c ≠ '=' :=
  claim_C9 wForm
    "eyJ0aXRsZSI6Ik15IFFSIiwidXJsIjoiaHR0cHM6Ly9leGFtcGxlLmNvbSIsImRlc2NyaXB0aW9uIjoiIiwiaWNvblVybCI6IiIsInRoZW1lQ29sb3IiOiIjRkU1MDAwIn0"
    (by decide)

end DevTasks
